import Mathlib

/-!
Verification development for the route-computation engine of the
pathfind-smart-navigator repository (src/src/lib/pathfinding.ts).

The engine is embedded shallowly:

* coordinates, distances and weights are rationals (`ℚ`);
* the transcendental geo-math helpers `calculateDistance` (haversine) and
  `calculateBearing` are abstracted into explicit function parameters
  `dCalc : ℚ → ℚ → ℚ → ℚ → ℚ` and `bearingL : ℚ → ℚ → ℚ → ℚ → String`;
  theorems that need metric facts about the haversine distance (nonnegativity,
  symmetry, identity, triangle inequality — all true of the great-circle
  metric) take them as hypotheses on `dCalc`;
* the calls to `Math.random()` are abstracted into draw streams
  `jit : ℕ → ℚ` (one draw per waypoint, used for both the latitude and the
  longitude perturbation, exactly as in the source) and `saf : ℕ → ℕ → ℚ`
  (one draw per generated edge, indexed by the node-index pair);
* `Infinity` in the distance map is modelled by `Option ℚ` with `none = ∞`;
  the JavaScript reads `distances.get(x) || Infinity` and
  `distances.get(x) || 0` are modelled exactly, including the fact that a
  stored `0` is falsy and therefore read back as `Infinity` by the first
  form;
* the two unbounded loops of the source (the priority-queue loop and the
  predecessor walk of the path reconstruction) are given explicit fuel and
  return `Option`; `none` means the computation did not complete within the
  given fuel.
-/

namespace Pathfinding

/-- `Location` record of pathfinding.ts (`lat`, `lng`, `name`, `category?`). -/
structure Location where
  lat : ℚ
  lng : ℚ
  name : String
  category : Option String
deriving DecidableEq

/-- `GraphNode` record of pathfinding.ts. -/
structure GraphNode where
  id : String
  lat : ℚ
  lng : ℚ
  name : String
  category : Option String
deriving DecidableEq

instance : Inhabited GraphNode := ⟨⟨"", 0, 0, "", none⟩⟩

/-- `GraphEdge` record of pathfinding.ts (`from` is a keyword in Lean,
hence `from_`). -/
structure GraphEdge where
  from_ : String
  to_ : String
  weight : ℚ
  distance : ℚ
deriving DecidableEq

instance : Inhabited GraphEdge := ⟨⟨"", "", 0, 0⟩⟩

/-- `Direction` record of pathfinding.ts. -/
structure Direction where
  instruction : String
  distance : ℚ
  direction : String
deriving DecidableEq

instance : Inhabited Direction := ⟨⟨"", 0, ""⟩⟩

/-- `RouteResult` record of pathfinding.ts.  The source wraps
`totalDistance` and `totalTime` into display strings
(`"<x> km"` / `"<x> min"`); the numeric values inside those strings are kept
here (`Math.round(totalDistance * 10) / 10` and the rounded minute count). -/
structure RouteResult where
  path : List GraphNode
  totalDistance : ℚ
  totalTime : ℤ
  algorithm : String
  directions : List Direction
deriving DecidableEq

/-- The `routeType` argument, `'shortest' | 'safest'`. -/
inductive RouteType where
  | shortest
  | safest
deriving DecidableEq

/-- JavaScript `Math.round`: round half toward positive infinity. -/
def jsRound (q : ℚ) : ℤ := ⌊q + 1 / 2⌋

/-- `Math.round(q * 10) / 10`, the one-decimal display rounding of the
source. -/
def roundTenth (q : ℚ) : ℚ := (jsRound (q * 10) : ℚ) / 10

/-- The `source` graph node: `{ id: 'source', ...source }` (caller
coordinates copied verbatim, no perturbation). -/
def sourceNodeOf (s : Location) : GraphNode :=
  ⟨"source", s.lat, s.lng, s.name, s.category⟩

/-- The `destination` graph node: `{ id: 'destination', ...destination }`. -/
def destNodeOf (t : Location) : GraphNode :=
  ⟨"destination", t.lat, t.lng, t.name, t.category⟩

/-- `numWaypoints = Math.min(Math.max(Math.floor(distance / 100), 2), 8)`. -/
def numWaypointsOf (dist : ℚ) : ℕ := (min (max ⌊dist / 100⌋ 2) 8).toNat

/-- One synthesized waypoint (loop body of `generateGraph`): linear
interpolation at ratio `i / numWaypoints` plus the jitter
`0.01 * (Math.random() - 0.5)`, the same draw added to both coordinates. -/
def mkWaypoint (jit : ℕ → ℚ) (s t : Location) (n : ℕ) (i : ℕ) : GraphNode :=
  let ratio : ℚ := (i : ℚ) / (n : ℚ)
  let variation : ℚ := (1 / 100) * (jit i - 1 / 2)
  ⟨"waypoint_" ++ toString i,
   s.lat + (t.lat - s.lat) * ratio + variation,
   s.lng + (t.lng - s.lng) * ratio + variation,
   "Waypoint " ++ toString i,
   some "waypoint"⟩

/-- The node list of `generateGraph`: source, destination, then the
waypoints `waypoint_1 … waypoint_{numWaypoints-1}` (`for i = 1; i <
numWaypoints; i++`). -/
def genNodes (dCalc : ℚ → ℚ → ℚ → ℚ → ℚ) (jit : ℕ → ℚ) (s t : Location) :
    List GraphNode :=
  let n := numWaypointsOf (dCalc s.lat s.lng t.lat t.lng)
  [sourceNodeOf s, destNodeOf t] ++ (List.range' 1 (n - 1)).map (mkWaypoint jit s t n)

/-- Index pairs of the double edge loop `for i; for j = i+1`. -/
def indexPairs (n : ℕ) : List (ℕ × ℕ) :=
  (List.range n).flatMap fun i => (List.range' (i + 1) (n - (i + 1))).map fun j => (i, j)

/-- Edge weight policy: `'shortest'` uses the base distance; `'safest'`
multiplies by `2 - safetyFactor` with
`safetyFactor = 0.8 + Math.random() * 0.4`. -/
def edgeWeight (rt : RouteType) (saf : ℕ → ℕ → ℚ) (i j : ℕ) (dist : ℚ) : ℚ :=
  match rt with
  | .shortest => dist
  | .safest => dist * (2 - (4 / 5 + saf i j * (2 / 5)))

/-- The edge list of `generateGraph`: a complete graph over the node list. -/
def genEdges (dCalc : ℚ → ℚ → ℚ → ℚ → ℚ) (saf : ℕ → ℕ → ℚ) (rt : RouteType)
    (nodes : List GraphNode) : List GraphEdge :=
  (indexPairs nodes.length).map fun p =>
    let n1 := nodes.getD p.1 default
    let n2 := nodes.getD p.2 default
    let dist := dCalc n1.lat n1.lng n2.lat n2.lng
    ⟨n1.id, n2.id, edgeWeight rt saf p.1 p.2 dist, dist⟩

/-- `generateGraph(source, destination, routeType)`. -/
def generateGraph (dCalc : ℚ → ℚ → ℚ → ℚ → ℚ) (jit : ℕ → ℚ) (saf : ℕ → ℕ → ℚ)
    (s t : Location) (rt : RouteType) : List GraphNode × List GraphEdge :=
  let nodes := genNodes dCalc jit s t
  (nodes, genEdges dCalc saf rt nodes)

/-- An adjacency entry `{ nodeId, weight, distance }`. -/
structure Neighbor where
  nodeId : String
  weight : ℚ
  distance : ℚ
deriving DecidableEq

/-- The adjacency list: each edge is pushed to both endpoints
(`graph.get(edge.from).push(...); graph.get(edge.to).push(...)`),
in edge order. -/
def mkAdj (edges : List GraphEdge) (v : String) : List Neighbor :=
  edges.flatMap fun e =>
    (if e.from_ = v then [⟨e.to_, e.weight, e.distance⟩] else []) ++
    (if e.to_ = v then [⟨e.from_, e.weight, e.distance⟩] else [])

/-- State of the Dijkstra loop: the `distances` map (`none` = `Infinity`),
the `previous` map (`none` = `null`), and the priority queue (a list kept
sorted by priority, matching the push-then-stable-sort implementation of the
source). -/
structure DState where
  dists : String → Option ℚ
  prev : String → Option String
  pq : List (String × ℚ)

/-- Pointwise map update. -/
def upd {α : Type} (f : String → α) (k : String) (v : α) : String → α :=
  fun x => if x = k then v else f x

/-- `enqueue`: push then re-sort with the stable `Array.prototype.sort` and
comparator `a.priority - b.priority`; on an already sorted list this places
the new element after every element of smaller or equal priority. -/
def pqInsert (id : String) (p : ℚ) : List (String × ℚ) → List (String × ℚ)
  | [] => [(id, p)]
  | (k, q) :: t => if q ≤ p then (k, q) :: pqInsert id p t else (id, p) :: (k, q) :: t

/-- The comparison read `distances.get(v) || Infinity`: a stored `0` is
falsy in JavaScript, so it reads back as `Infinity` (`none`), exactly like a
stored `Infinity`. -/
def readCmp : Option ℚ → Option ℚ
  | some q => if q = 0 then none else some q
  | none => none

/-- `altDistance < (distances.get(v) || Infinity)` with `none = Infinity`. -/
def optLtB (a : ℚ) : Option ℚ → Bool
  | none => true
  | some b => decide (a < b)

/-- One relaxation (`for (const neighbor of neighbors)` body).  The read
`distances.get(current) || 0` keeps a stored `0` (falsy, replaced by `0`)
and keeps `Infinity` (truthy); a stored `Infinity` makes `altDistance`
infinite so the `<` test fails, modelled by the `none` branch.  (Every
dequeued id is a node id, so the map lookup never yields `undefined`.) -/
def relaxOne (cur : String) (st : DState) (nbr : Neighbor) : DState :=
  match st.dists cur with
  | none => st
  | some q =>
    let alt := q + nbr.weight
    if optLtB alt (readCmp (st.dists nbr.nodeId)) then
      { dists := upd st.dists nbr.nodeId (some alt)
        prev := upd st.prev nbr.nodeId (some cur)
        pq := pqInsert nbr.nodeId alt st.pq }
    else st

/-- The `while (!pq.isEmpty())` loop of `findShortestPath`, with fuel.
Each iteration dequeues the head; a dequeued `'destination'` breaks the loop
(early exit of the source); otherwise all neighbors are relaxed in order. -/
def dijkstraLoop (adj : String → List Neighbor) : ℕ → DState → Option DState
  | 0, _ => none
  | fuel + 1, st =>
    match st.pq with
    | [] => some st
    | (cur, _) :: rest =>
      if cur = "destination" then some { st with pq := rest }
      else dijkstraLoop adj fuel ((adj cur).foldl (relaxOne cur) { st with pq := rest })

/-- Initial solver state: `distance[source] = 0`, everything else `∞`, all
predecessors `null`, queue `[('source', 0)]`.  (The source initializes the
maps for the node ids only; lookups outside the node ids never happen along
reachable states, so the total-function extension by `∞`/`null` is
faithful.) -/
def initState : DState :=
  { dists := fun v => if v = "source" then some 0 else none
    prev := fun _ => none
    pq := [("source", 0)] }

/-- The backward predecessor walk of the path reconstruction
(`while (currentId !== null) { ...; currentId = previous.get(currentId) || null }`),
with fuel; returns the visited ids in visit order. -/
def walkIds (prev : String → Option String) : ℕ → String → Option (List String)
  | 0, _ => none
  | fuel + 1, cur =>
    match prev cur with
    | none => some [cur]
    | some nxt => (walkIds prev fuel nxt).map (cur :: ·)

/-- Path reconstruction: walk predecessors from `'destination'`, look each id
up in the node list (`nodes.find`; a missing id is skipped, `if (node)`), and
reverse (the source `unshift`s). -/
def reconstructPath (nodes : List GraphNode) (prev : String → Option String)
    (fuel : ℕ) : Option (List GraphNode) :=
  (walkIds prev fuel "destination").map fun ids =>
    (ids.filterMap fun i => nodes.find? fun n => n.id = i).reverse

/-- The total-distance loop: sum of `calculateDistance` over consecutive
path nodes. -/
def sumLegs (dCalc : ℚ → ℚ → ℚ → ℚ → ℚ) : List GraphNode → ℚ
  | a :: b :: rest => dCalc a.lat a.lng b.lat b.lng + sumLegs dCalc (b :: rest)
  | _ => 0

/-- The direction-generation loop of `findShortestPath`: one entry per index
`i < path.length - 1`, with the start instruction at `i = 0`, the arrive
instruction at `i = path.length - 2`, and a continue instruction (embedding
the lower-cased compass label) in between. -/
def mkDirections (dCalc : ℚ → ℚ → ℚ → ℚ → ℚ) (bearingL : ℚ → ℚ → ℚ → ℚ → String)
    (path : List GraphNode) : List Direction :=
  (List.range (path.length - 1)).map fun i =>
    let current := path.getD i default
    let next := path.getD (i + 1) default
    let dist := dCalc current.lat current.lng next.lat next.lng
    let b := bearingL current.lat current.lng next.lat next.lng
    let instruction :=
      if i = 0 then "Start your journey from " ++ current.name
      else if i = path.length - 2 then "Arrive at " ++ next.name
      else "Continue " ++ b.toLower ++ " towards " ++ next.name
    ⟨instruction, roundTenth dist, b⟩

/-- `findShortestPath(source, destination, routeType)`, the whole engine:
graph synthesis, Dijkstra loop, path reconstruction, aggregation, direction
generation.  `none` means the computation did not complete within `fuel`
iterations of the two loops. -/
def findShortestPath (dCalc : ℚ → ℚ → ℚ → ℚ → ℚ) (bearingL : ℚ → ℚ → ℚ → ℚ → String)
    (jit : ℕ → ℚ) (saf : ℕ → ℕ → ℚ) (fuel : ℕ) (s t : Location) (rt : RouteType) :
    Option RouteResult :=
  let g := generateGraph dCalc jit saf s t rt
  let adj := mkAdj g.2
  match dijkstraLoop adj fuel initState with
  | none => none
  | some st =>
    match reconstructPath g.1 st.prev fuel with
    | none => none
    | some path =>
      let totalDistance := sumLegs dCalc path
      some { path := path
             totalDistance := roundTenth totalDistance
             totalTime := jsRound (totalDistance * (6 / 5))
             algorithm := "Dijkstra\x27s"
             directions := mkDirections dCalc bearingL path }

/-- The state after the first loop iteration (which always dequeues
`'source'` and relaxes all its neighbors). -/
def st1Of (dCalc : ℚ → ℚ → ℚ → ℚ → ℚ) (jit : ℕ → ℚ) (saf : ℕ → ℕ → ℚ)
    (s t : Location) (rt : RouteType) : DState :=
  let g := generateGraph dCalc jit saf s t rt
  ((mkAdj g.2) "source").foldl (relaxOne "source") { initState with pq := [] }

/-- The Dijkstra loop run on the synthesized graph from the initial state. -/
def dijkstraLoopOf (dCalc : ℚ → ℚ → ℚ → ℚ → ℚ) (jit : ℕ → ℚ) (saf : ℕ → ℕ → ℚ)
    (fuel : ℕ) (s t : Location) (rt : RouteType) : Option DState :=
  let g := generateGraph dCalc jit saf s t rt
  dijkstraLoop (mkAdj g.2) fuel initState

/-- The solver value `distance[destination]` after the loop (outer `none` =
loop did not complete; inner `none` = `Infinity`). -/
def solverDistDest (dCalc : ℚ → ℚ → ℚ → ℚ → ℚ) (jit : ℕ → ℚ) (saf : ℕ → ℕ → ℚ)
    (fuel : ℕ) (s t : Location) (rt : RouteType) : Option (Option ℚ) :=
  (dijkstraLoopOf dCalc jit saf fuel s t rt).map fun st => st.dists "destination"

/-- The solver value `previous[destination]` after the loop. -/
def solverPrevDest (dCalc : ℚ → ℚ → ℚ → ℚ → ℚ) (jit : ℕ → ℚ) (saf : ℕ → ℕ → ℚ)
    (fuel : ℕ) (s t : Location) (rt : RouteType) : Option (Option String) :=
  (dijkstraLoopOf dCalc jit saf fuel s t rt).map fun st => st.prev "destination"

/-- The literal chain source → waypoint_1 → … → waypoint_n → destination
over a generated node list (which stores source, destination, then the
waypoints). -/
def chainNodesOf : List GraphNode → List GraphNode
  | s :: d :: wps => s :: (wps ++ [d])
  | l => l

/-- Specification-side formulation of the distance aggregate: the sum of
`dCalc` over consecutive ordered-path pairs, written with `zip` as in the
spec text (§4.4, §8 Distance additivity). -/
def specConsecutiveDistanceSum (dCalc : ℚ → ℚ → ℚ → ℚ → ℚ) (path : List GraphNode) : ℚ :=
  ((path.zip path.tail).map fun p => dCalc p.1.lat p.1.lng p.2.lat p.2.lng).sum

/-- The `RouteResult` actually produced whenever `findShortestPath` returns:
the direct two-node route (see `find_eq_some_characterize`). -/
def canonicalResult (dCalc : ℚ → ℚ → ℚ → ℚ → ℚ) (bearingL : ℚ → ℚ → ℚ → ℚ → String)
    (s t : Location) : RouteResult :=
  let path := [sourceNodeOf s, destNodeOf t]
  let totalDistance := sumLegs dCalc path
  { path := path
    totalDistance := roundTenth totalDistance
    totalTime := jsRound (totalDistance * (6 / 5))
    algorithm := "Dijkstra\x27s"
    directions := mkDirections dCalc bearingL path }

/-- Concrete instantiation used by the witnesses: the taxicab metric on
rational coordinates (an executable stand-in for the haversine distance that
satisfies the same metric axioms). -/
def dTaxi (a b c e : ℚ) : ℚ := |a - c| + |b - e|

/-- Concrete bearing labeller for the witnesses (the source quantizes the
bearing of the zero-length segment to `'North'`, since
`Math.atan2(0, 0) = 0`). -/
def bNorth (_ _ _ _ : ℚ) : String := "North"

/-- Concrete jitter stream: every draw is `0.5`, i.e. zero perturbation. -/
def jitHalf (_ : ℕ) : ℚ := 1 / 2

/-- Concrete safety-draw stream: every draw is `0`. -/
def safZero (_ _ : ℕ) : ℚ := 0

/-- Witness source location. -/
def locA : Location := ⟨0, 0, "A", none⟩

/-- Witness destination location (distinct from `locA`). -/
def locB : Location := ⟨0, 1, "B", none⟩

/-- The concrete result returned at coincident endpoints `locA → locA`. -/
def resultAA : RouteResult := canonicalResult dTaxi bNorth locA locA

/-! ### Basic lemmas about the state operations -/

theorem upd_same {α : Type} (f : String → α) (k : String) (v : α) : upd f k v k = v := by
  simp [upd]

theorem upd_ne {α : Type} (f : String → α) (k : String) (v : α) (x : String) (h : x ≠ k) :
    upd f k v x = f x := by
  simp [upd, h]

theorem pqInsert_mem (x : String × ℚ) (id : String) (p : ℚ) (l : List (String × ℚ)) :
    x ∈ pqInsert id p l ↔ x = (id, p) ∨ x ∈ l := by
  induction l with
  | nil => simp [pqInsert]
  | cons hd t ih =>
    obtain ⟨k, q⟩ := hd
    by_cases hq : q ≤ p
    · simp only [pqInsert, if_pos hq, List.mem_cons, ih]
      tauto
    · simp only [pqInsert, if_neg hq, List.mem_cons]

theorem pqInsert_cons_of_le (id : String) (p : ℚ) (k : String) (q : ℚ)
    (t : List (String × ℚ)) (h : q ≤ p) :
    pqInsert id p ((k, q) :: t) = (k, q) :: pqInsert id p t := by
  simp [pqInsert, h]

theorem readCmp_zero : readCmp (some 0) = none := by simp [readCmp]

theorem optLtB_none (a : ℚ) : optLtB a none = true := rfl

/-- A relaxation fires whenever the comparison read yields `Infinity`. -/
theorem relaxOne_fires (cur : String) (st : DState) (nbr : Neighbor) (q : ℚ)
    (hq : st.dists cur = some q) (hr : readCmp (st.dists nbr.nodeId) = none) :
    relaxOne cur st nbr =
      { dists := upd st.dists nbr.nodeId (some (q + nbr.weight))
        prev := upd st.prev nbr.nodeId (some cur)
        pq := pqInsert nbr.nodeId (q + nbr.weight) st.pq } := by
  unfold relaxOne
  rw [hq]
  simp [hr, optLtB_none]

theorem relaxOne_dists_ne (cur : String) (st : DState) (nbr : Neighbor) (v : String)
    (h : v ≠ nbr.nodeId) : (relaxOne cur st nbr).dists v = st.dists v := by
  unfold relaxOne
  cases st.dists cur with
  | none => rfl
  | some q =>
    dsimp only
    split
    · exact upd_ne _ _ _ _ h
    · rfl

theorem relaxOne_prev_ne (cur : String) (st : DState) (nbr : Neighbor) (v : String)
    (h : v ≠ nbr.nodeId) : (relaxOne cur st nbr).prev v = st.prev v := by
  unfold relaxOne
  cases st.dists cur with
  | none => rfl
  | some q =>
    dsimp only
    split
    · exact upd_ne _ _ _ _ h
    · rfl

theorem relaxOne_dists_some (cur : String) (st : DState) (nbr : Neighbor) (v : String)
    (h : ∃ q, st.dists v = some q) : ∃ q', (relaxOne cur st nbr).dists v = some q' := by
  obtain ⟨q, hq⟩ := h
  unfold relaxOne
  cases st.dists cur with
  | none => exact ⟨q, hq⟩
  | some q0 =>
    dsimp only
    split
    · by_cases hv : v = nbr.nodeId
      · subst hv
        exact ⟨_, upd_same _ _ _⟩
      · exact ⟨q, (upd_ne _ _ _ _ hv).trans hq⟩
    · exact ⟨q, hq⟩

theorem relaxOne_prev_some (cur : String) (st : DState) (nbr : Neighbor) (v : String)
    (h : ∃ u, st.prev v = some u) : ∃ u', (relaxOne cur st nbr).prev v = some u' := by
  obtain ⟨u, hu⟩ := h
  unfold relaxOne
  cases st.dists cur with
  | none => exact ⟨u, hu⟩
  | some q0 =>
    dsimp only
    split
    · by_cases hv : v = nbr.nodeId
      · subst hv
        exact ⟨_, upd_same _ _ _⟩
      · exact ⟨u, (upd_ne _ _ _ _ hv).trans hu⟩
    · exact ⟨u, hu⟩

theorem foldl_relax_dists_some (cur : String) (nbrs : List Neighbor) (st : DState)
    (v : String) (h : ∃ q, st.dists v = some q) :
    ∃ q', (nbrs.foldl (relaxOne cur) st).dists v = some q' := by
  induction nbrs generalizing st with
  | nil => exact h
  | cons nb rest ih => exact ih _ (relaxOne_dists_some cur st nb v h)

theorem foldl_relax_prev_some (cur : String) (nbrs : List Neighbor) (st : DState)
    (v : String) (h : ∃ u, st.prev v = some u) :
    ∃ u', (nbrs.foldl (relaxOne cur) st).prev v = some u' := by
  induction nbrs generalizing st with
  | nil => exact h
  | cons nb rest ih => exact ih _ (relaxOne_prev_some cur st nb v h)

theorem dijkstraLoop_prev_some (adj : String → List Neighbor) (fuel : ℕ) (st st' : DState)
    (v : String) (h : ∃ u, st.prev v = some u)
    (hL : dijkstraLoop adj fuel st = some st') : ∃ u', st'.prev v = some u' := by
  induction fuel generalizing st with
  | zero => exact absurd hL (by simp [dijkstraLoop])
  | succ f ih =>
    rw [dijkstraLoop] at hL
    cases hpq : st.pq with
    | nil =>
      rw [hpq] at hL
      cases hL
      exact h
    | cons hd rest =>
      obtain ⟨cur, p⟩ := hd
      rw [hpq] at hL
      dsimp only at hL
      by_cases hcur : cur = "destination"
      · rw [if_pos hcur] at hL
        cases hL
        exact h
      · rw [if_neg hcur] at hL
        exact ih (List.foldl (relaxOne cur) { st with pq := rest } (adj cur))
          (foldl_relax_prev_some cur (adj cur) { st with pq := rest } v h) hL

theorem dijkstraLoop_dists_some (adj : String → List Neighbor) (fuel : ℕ) (st st' : DState)
    (v : String) (h : ∃ q, st.dists v = some q)
    (hL : dijkstraLoop adj fuel st = some st') : ∃ q', st'.dists v = some q' := by
  induction fuel generalizing st with
  | zero => exact absurd hL (by simp [dijkstraLoop])
  | succ f ih =>
    rw [dijkstraLoop] at hL
    cases hpq : st.pq with
    | nil =>
      rw [hpq] at hL
      cases hL
      exact h
    | cons hd rest =>
      obtain ⟨cur, p⟩ := hd
      rw [hpq] at hL
      dsimp only at hL
      by_cases hcur : cur = "destination"
      · rw [if_pos hcur] at hL
        cases hL
        exact h
      · rw [if_neg hcur] at hL
        exact ih (List.foldl (relaxOne cur) { st with pq := rest } (adj cur))
          (foldl_relax_dists_some cur (adj cur) { st with pq := rest } v h) hL

/-- If every member of `S` has a predecessor inside `S`, the backward walk
starting inside `S` never reaches a `null` predecessor: it runs out of fuel
for every fuel value. -/
theorem walkIds_none_of_trapped (prev : String → Option String) (S : List String)
    (hS : ∀ v ∈ S, ∃ u, prev v = some u ∧ u ∈ S) (start : String) (hs : start ∈ S) :
    ∀ fuel, walkIds prev fuel start = none := by
  intro fuel
  induction fuel generalizing start with
  | zero => rfl
  | succ f ih =>
    obtain ⟨u, hu, huS⟩ := hS start hs
    rw [walkIds, hu]
    simp [ih u huS]

/-! ### Characterization of the first loop iteration -/

/-- Relaxing a list of fresh neighbors (all distances still `∞`, all ids
distinct and different from the current node) from a node at distance `0`:
every relaxation fires, each neighbor ends at distance `0 + weight` with the
current node as predecessor, and the queue is the fold of the corresponding
inserts. -/
theorem relaxAll_fresh (cur : String) (nbrs : List Neighbor) (st : DState)
    (hcur : st.dists cur = some 0)
    (hfresh : ∀ nb ∈ nbrs, st.dists nb.nodeId = none)
    (hni : cur ∉ nbrs.map Neighbor.nodeId)
    (hnd : (nbrs.map Neighbor.nodeId).Nodup) :
    (∀ v, v ∉ nbrs.map Neighbor.nodeId →
      (nbrs.foldl (relaxOne cur) st).dists v = st.dists v ∧
      (nbrs.foldl (relaxOne cur) st).prev v = st.prev v) ∧
    (∀ nb ∈ nbrs, (nbrs.foldl (relaxOne cur) st).dists nb.nodeId = some (0 + nb.weight) ∧
      (nbrs.foldl (relaxOne cur) st).prev nb.nodeId = some cur) ∧
    (nbrs.foldl (relaxOne cur) st).pq =
      nbrs.foldl (fun acc nb => pqInsert nb.nodeId (0 + nb.weight) acc) st.pq := by
  induction nbrs generalizing st with
  | nil => exact ⟨fun v _ => ⟨rfl, rfl⟩, fun nb h => absurd h (List.not_mem_nil nb), rfl⟩
  | cons nb rest ih =>
    have hfire : relaxOne cur st nb =
        { dists := upd st.dists nb.nodeId (some (0 + nb.weight))
          prev := upd st.prev nb.nodeId (some cur)
          pq := pqInsert nb.nodeId (0 + nb.weight) st.pq } :=
      relaxOne_fires cur st nb 0 hcur (by rw [hfresh nb (List.mem_cons_self nb rest)]; rfl)
    set st' : DState :=
      { dists := upd st.dists nb.nodeId (some (0 + nb.weight))
        prev := upd st.prev nb.nodeId (some cur)
        pq := pqInsert nb.nodeId (0 + nb.weight) st.pq } with hst'
    have hmapcons : (nb :: rest).map Neighbor.nodeId = nb.nodeId :: rest.map Neighbor.nodeId :=
      rfl
    have hnbni : nb.nodeId ∉ rest.map Neighbor.nodeId := by
      rw [hmapcons] at hnd
      exact (List.nodup_cons.mp hnd).1
    have hcurne : cur ≠ nb.nodeId := by
      intro hc
      exact hni (by rw [hmapcons, hc]; exact List.mem_cons_self _ _)
    have hcur' : st'.dists cur = some 0 := by
      rw [hst']
      dsimp only
      rw [upd_ne _ _ _ _ hcurne]
      exact hcur
    have hfresh' : ∀ nb' ∈ rest, st'.dists nb'.nodeId = none := by
      intro nb' hm
      rw [hst']
      dsimp only
      have hmm : nb'.nodeId ∈ rest.map Neighbor.nodeId := List.mem_map_of_mem Neighbor.nodeId hm
      rw [upd_ne _ _ _ _ (by intro hc; exact hnbni (by rw [← hc]; exact hmm))]
      exact hfresh nb' (List.mem_cons_of_mem nb hm)
    have hni' : cur ∉ rest.map Neighbor.nodeId := by
      intro hc
      exact hni (by rw [hmapcons]; exact List.mem_cons_of_mem _ hc)
    have hnd' : (rest.map Neighbor.nodeId).Nodup := by
      rw [hmapcons] at hnd
      exact (List.nodup_cons.mp hnd).2
    obtain ⟨ihP5, ihP3, ihP4⟩ := ih st' hcur' hfresh' hni' hnd'
    have hfold : (nb :: rest).foldl (relaxOne cur) st = rest.foldl (relaxOne cur) st' := by
      rw [List.foldl_cons, hfire]
    refine ⟨?_, ?_, ?_⟩
    · intro v hv
      have hv1 : v ≠ nb.nodeId := by
        intro hc
        exact hv (by rw [hmapcons, hc]; exact List.mem_cons_self _ _)
      have hv2 : v ∉ rest.map Neighbor.nodeId := by
        intro hc
        exact hv (by rw [hmapcons]; exact List.mem_cons_of_mem _ hc)
      obtain ⟨hd5, hp5⟩ := ihP5 v hv2
      rw [hfold]
      constructor
      · rw [hd5, hst']
        exact upd_ne _ _ _ _ hv1
      · rw [hp5, hst']
        exact upd_ne _ _ _ _ hv1
    · intro nb' hm
      rw [hfold]
      rcases List.mem_cons.mp hm with hm1 | hm2
      · subst hm1
        obtain ⟨hd5, hp5⟩ := ihP5 nb'.nodeId hnbni
        rw [hd5, hp5, hst']
        exact ⟨upd_same _ _ _, upd_same _ _ _⟩
      · exact ihP3 nb' hm2
    · rw [hfold, ihP4, hst', List.foldl_cons]

/-- If some neighbor in the list is the source node (whose stored distance
`0` is read back as `Infinity` by `distances.get(...) || Infinity`), folding
the relaxations from any reachable node gives the source a predecessor. -/
theorem foldl_relax_hits (cur : String) (nbrs : List Neighbor) (st : DState)
    (hd : ∃ q, st.dists cur = some q)
    (hs : st.dists "source" = some 0)
    (hmem : ∃ nb ∈ nbrs, nb.nodeId = "source") :
    ∃ u, (nbrs.foldl (relaxOne cur) st).prev "source" = some u := by
  induction nbrs generalizing st with
  | nil => simp at hmem
  | cons nb rest ih =>
    by_cases hnb : nb.nodeId = "source"
    · obtain ⟨q, hq⟩ := hd
      have hfire := relaxOne_fires cur st nb q hq (by rw [hnb, hs]; rfl)
      rw [List.foldl_cons, hfire]
      refine foldl_relax_prev_some cur rest _ "source" ⟨cur, ?_⟩
      dsimp only
      rw [← hnb, upd_same]
    · rcases hmem with ⟨nb', hm, hid⟩
      rcases List.mem_cons.mp hm with hm1 | hm2
      · exact absurd (hm1 ▸ hid) hnb
      · rw [List.foldl_cons]
        refine ih (relaxOne cur st nb) (relaxOne_dists_some cur st nb cur hd) ?_ ⟨nb', hm2, hid⟩
        rw [relaxOne_dists_ne cur st nb "source" (fun hc => hnb hc.symm)]
        exact hs

/-- Membership in the fold of queue inserts. -/
theorem foldl_pqInsert_mem (nbrs : List Neighbor) (acc : List (String × ℚ))
    (x : String × ℚ) :
    x ∈ nbrs.foldl (fun acc nb => pqInsert nb.nodeId (0 + nb.weight) acc) acc ↔
      x ∈ acc ∨ ∃ nb ∈ nbrs, x = (nb.nodeId, 0 + nb.weight) := by
  induction nbrs generalizing acc with
  | nil => simp
  | cons nb rest ih =>
    rw [List.foldl_cons, ih, pqInsert_mem]
    constructor
    · rintro ((h1 | h2) | h3)
      · exact Or.inr ⟨nb, List.mem_cons_self _ _, h1⟩
      · exact Or.inl h2
      · obtain ⟨nb', hm, hx⟩ := h3
        exact Or.inr ⟨nb', List.mem_cons_of_mem _ hm, hx⟩
    · rintro (h1 | ⟨nb', hm, hx⟩)
      · exact Or.inl (Or.inr h1)
      · rcases List.mem_cons.mp hm with hm1 | hm2
        · exact Or.inl (Or.inl (hm1 ▸ hx))
        · exact Or.inr ⟨nb', hm2, hx⟩

/-- Folding inserts of nonnegative priorities keeps a zero-priority head. -/
theorem foldl_pqInsert_head (nbrs : List Neighbor) (k : String) (t : List (String × ℚ))
    (hw : ∀ nb ∈ nbrs, 0 ≤ nb.weight) :
    ∃ t', nbrs.foldl (fun acc nb => pqInsert nb.nodeId (0 + nb.weight) acc) ((k, 0) :: t) =
      (k, 0) :: t' := by
  induction nbrs generalizing t with
  | nil => exact ⟨t, rfl⟩
  | cons nb rest ih =>
    rw [List.foldl_cons,
      pqInsert_cons_of_le _ _ _ _ _ (by simpa using hw nb (List.mem_cons_self _ _))]
    exact ih (pqInsert nb.nodeId (0 + nb.weight) t) fun nb' hm => hw nb' (List.mem_cons_of_mem _ hm)

/-! ### Structure of the synthesized node list -/

theorem numWaypointsOf_ge_two (d : ℚ) : 2 ≤ numWaypointsOf d := by
  unfold numWaypointsOf
  have h1 : (2 : ℤ) ≤ min (max ⌊d / 100⌋ 2) 8 := le_min (le_max_right _ _) (by norm_num)
  omega

theorem numWaypointsOf_le_eight (d : ℚ) : numWaypointsOf d ≤ 8 := by
  unfold numWaypointsOf
  have h1 : min (max ⌊d / 100⌋ 2) 8 ≤ (8 : ℤ) := min_le_right _ _
  omega

theorem genNodes_length (dCalc : ℚ → ℚ → ℚ → ℚ → ℚ) (jit : ℕ → ℚ) (s t : Location) :
    (genNodes dCalc jit s t).length =
      numWaypointsOf (dCalc s.lat s.lng t.lat t.lng) + 1 := by
  have h2 := numWaypointsOf_ge_two (dCalc s.lat s.lng t.lat t.lng)
  unfold genNodes
  simp only [List.length_append, List.length_map, List.length_range', List.length_cons,
    List.length_nil]
  omega

theorem wpId_ne_source (i : ℕ) (h1 : 1 ≤ i) (h2 : i ≤ 7) :
    ("waypoint_" ++ toString i) ≠ "source" := by
  interval_cases i <;> decide

theorem wpId_ne_destination (i : ℕ) (h1 : 1 ≤ i) (h2 : i ≤ 7) :
    ("waypoint_" ++ toString i) ≠ "destination" := by
  interval_cases i <;> decide

theorem wpId_inj (i j : ℕ) (h1 : 1 ≤ i) (h2 : i ≤ 7) (h3 : 1 ≤ j) (h4 : j ≤ 7)
    (h : ("waypoint_" ++ toString i) = ("waypoint_" ++ toString j)) : i = j := by
  interval_cases i <;> interval_cases j <;> first
    | rfl
    | exact absurd h (by with_unfolding_all decide)

theorem genNodes_getD_zero (dCalc : ℚ → ℚ → ℚ → ℚ → ℚ) (jit : ℕ → ℚ) (s t : Location) :
    (genNodes dCalc jit s t).getD 0 default = sourceNodeOf s := rfl

theorem genNodes_getD_one (dCalc : ℚ → ℚ → ℚ → ℚ → ℚ) (jit : ℕ → ℚ) (s t : Location) :
    (genNodes dCalc jit s t).getD 1 default = destNodeOf t := rfl

theorem genNodes_getD_ge_two (dCalc : ℚ → ℚ → ℚ → ℚ → ℚ) (jit : ℕ → ℚ) (s t : Location)
    (j : ℕ) (h2 : 2 ≤ j) (hj : j < (genNodes dCalc jit s t).length) :
    (genNodes dCalc jit s t).getD j default =
      mkWaypoint jit s t (numWaypointsOf (dCalc s.lat s.lng t.lat t.lng)) (j - 1) := by
  have hlen := genNodes_length dCalc jit s t
  set n := numWaypointsOf (dCalc s.lat s.lng t.lat t.lng) with hn
  obtain ⟨k, rfl⟩ : ∃ k, j = k + 2 := ⟨j - 2, by omega⟩
  have hk : k < n - 1 := by omega
  show (sourceNodeOf s :: destNodeOf t ::
      (List.range' 1 (n - 1)).map (mkWaypoint jit s t n)).getD (k + 2) default = _
  rw [List.getD_cons_succ, List.getD_cons_succ,
    List.getD_eq_getElem _ _ (by simpa using hk), List.getElem_map, List.getElem_range']
  congr 1
  omega

theorem genNodes_getD_id (dCalc : ℚ → ℚ → ℚ → ℚ → ℚ) (jit : ℕ → ℚ) (s t : Location)
    (j : ℕ) (hj : j < (genNodes dCalc jit s t).length) :
    ((genNodes dCalc jit s t).getD j default).id =
      if j = 0 then "source" else if j = 1 then "destination"
        else "waypoint_" ++ toString (j - 1) := by
  match j with
  | 0 => rfl
  | 1 => rfl
  | (k + 2) =>
    rw [genNodes_getD_ge_two dCalc jit s t (k + 2) (by omega) hj]
    simp [mkWaypoint]

theorem genNodes_getD_id_ne_source (dCalc : ℚ → ℚ → ℚ → ℚ → ℚ) (jit : ℕ → ℚ)
    (s t : Location) (j : ℕ) (h1 : 1 ≤ j) (hj : j < (genNodes dCalc jit s t).length) :
    ((genNodes dCalc jit s t).getD j default).id ≠ "source" := by
  have hlen := genNodes_length dCalc jit s t
  have h8 := numWaypointsOf_le_eight (dCalc s.lat s.lng t.lat t.lng)
  rw [genNodes_getD_id dCalc jit s t j hj]
  rcases Nat.lt_or_ge j 2 with hlt | hge
  · have : j = 1 := by omega
    subst this
    decide
  · rw [if_neg (by omega), if_neg (by omega)]
    exact wpId_ne_source (j - 1) (by omega) (by omega)

theorem genNodes_getD_id_two (dCalc : ℚ → ℚ → ℚ → ℚ → ℚ) (jit : ℕ → ℚ) (s t : Location)
    (k : ℕ) (hk : k + 2 < (genNodes dCalc jit s t).length) :
    ((genNodes dCalc jit s t).getD (k + 2) default).id = "waypoint_" ++ toString (k + 1) := by
  rw [genNodes_getD_ge_two dCalc jit s t (k + 2) (by omega) hk]
  rfl

theorem genNodes_id_inj (dCalc : ℚ → ℚ → ℚ → ℚ → ℚ) (jit : ℕ → ℚ) (s t : Location)
    (j k : ℕ) (hj : j < (genNodes dCalc jit s t).length)
    (hk : k < (genNodes dCalc jit s t).length)
    (h : ((genNodes dCalc jit s t).getD j default).id =
      ((genNodes dCalc jit s t).getD k default).id) : j = k := by
  have hlen := genNodes_length dCalc jit s t
  have h8 := numWaypointsOf_le_eight (dCalc s.lat s.lng t.lat t.lng)
  match j, k with
  | 0, 0 => rfl
  | 1, 1 => rfl
  | 0, 1 =>
    rw [genNodes_getD_zero, genNodes_getD_one] at h
    simp [sourceNodeOf, destNodeOf] at h
  | 1, 0 =>
    rw [genNodes_getD_zero, genNodes_getD_one] at h
    simp [sourceNodeOf, destNodeOf] at h
  | 0, (k + 2) =>
    rw [genNodes_getD_zero, genNodes_getD_id_two dCalc jit s t k hk] at h
    exact absurd h.symm (wpId_ne_source (k + 1) (by omega) (by omega))
  | (j + 2), 0 =>
    rw [genNodes_getD_zero, genNodes_getD_id_two dCalc jit s t j hj] at h
    exact absurd h (wpId_ne_source (j + 1) (by omega) (by omega))
  | 1, (k + 2) =>
    rw [genNodes_getD_one, genNodes_getD_id_two dCalc jit s t k hk] at h
    exact absurd h.symm (wpId_ne_destination (k + 1) (by omega) (by omega))
  | (j + 2), 1 =>
    rw [genNodes_getD_one, genNodes_getD_id_two dCalc jit s t j hj] at h
    exact absurd h (wpId_ne_destination (j + 1) (by omega) (by omega))
  | (j + 2), (k + 2) =>
    rw [genNodes_getD_id_two dCalc jit s t j hj, genNodes_getD_id_two dCalc jit s t k hk] at h
    have := wpId_inj (j + 1) (k + 1) (by omega) (by omega) (by omega) (by omega) h
    omega

/-! ### Structure of the synthesized edge list and adjacency lists -/

theorem mem_indexPairs (n i j : ℕ) : (i, j) ∈ indexPairs n ↔ i < j ∧ j < n := by
  unfold indexPairs
  simp only [List.mem_flatMap, List.mem_range, List.mem_map, List.mem_range'_1,
    Prod.mk.injEq]
  constructor
  · rintro ⟨i', hi', j', ⟨hj1, hj2⟩, hi, hj⟩
    subst hi
    subst hj
    omega
  · rintro ⟨hij, hjn⟩
    exact ⟨i, by omega, j, ⟨by omega, by omega⟩, rfl, rfl⟩

theorem genEdges_mem (dCalc : ℚ → ℚ → ℚ → ℚ → ℚ) (saf : ℕ → ℕ → ℚ) (rt : RouteType)
    (nodes : List GraphNode) (e : GraphEdge) (he : e ∈ genEdges dCalc saf rt nodes) :
    ∃ i j, i < j ∧ j < nodes.length ∧
      e = ⟨(nodes.getD i default).id, (nodes.getD j default).id,
        edgeWeight rt saf i j (dCalc (nodes.getD i default).lat (nodes.getD i default).lng
          (nodes.getD j default).lat (nodes.getD j default).lng),
        dCalc (nodes.getD i default).lat (nodes.getD i default).lng
          (nodes.getD j default).lat (nodes.getD j default).lng⟩ := by
  unfold genEdges at he
  rw [List.mem_map] at he
  obtain ⟨p, hp, hpe⟩ := he
  obtain ⟨i, j⟩ := p
  rw [mem_indexPairs] at hp
  exact ⟨i, j, hp.1, hp.2, hpe.symm⟩

theorem genEdges_mem_of_pair (dCalc : ℚ → ℚ → ℚ → ℚ → ℚ) (saf : ℕ → ℕ → ℚ) (rt : RouteType)
    (nodes : List GraphNode) (i j : ℕ) (hij : i < j) (hj : j < nodes.length) :
    (⟨(nodes.getD i default).id, (nodes.getD j default).id,
      edgeWeight rt saf i j (dCalc (nodes.getD i default).lat (nodes.getD i default).lng
        (nodes.getD j default).lat (nodes.getD j default).lng),
      dCalc (nodes.getD i default).lat (nodes.getD i default).lng
        (nodes.getD j default).lat (nodes.getD j default).lng⟩ : GraphEdge) ∈
      genEdges dCalc saf rt nodes := by
  unfold genEdges
  rw [List.mem_map]
  exact ⟨(i, j), (mem_indexPairs _ i j).mpr ⟨hij, hj⟩, rfl⟩

theorem mkAdj_mem (edges : List GraphEdge) (v : String) (nb : Neighbor)
    (h : nb ∈ mkAdj edges v) :
    ∃ e ∈ edges, (e.from_ = v ∧ nb = ⟨e.to_, e.weight, e.distance⟩) ∨
      (e.to_ = v ∧ nb = ⟨e.from_, e.weight, e.distance⟩) := by
  unfold mkAdj at h
  rw [List.mem_flatMap] at h
  obtain ⟨e, he, hm⟩ := h
  rw [List.mem_append] at hm
  refine ⟨e, he, ?_⟩
  rcases hm with h1 | h2
  · by_cases hc : e.from_ = v
    · rw [if_pos hc] at h1
      exact Or.inl ⟨hc, List.mem_singleton.mp h1⟩
    · rw [if_neg hc] at h1
      exact absurd h1 (List.not_mem_nil _)
  · by_cases hc : e.to_ = v
    · rw [if_pos hc] at h2
      exact Or.inr ⟨hc, List.mem_singleton.mp h2⟩
    · rw [if_neg hc] at h2
      exact absurd h2 (List.not_mem_nil _)

theorem mkAdj_mem_of_to (edges : List GraphEdge) (v : String) (e : GraphEdge)
    (he : e ∈ edges) (hv : e.to_ = v) :
    (⟨e.from_, e.weight, e.distance⟩ : Neighbor) ∈ mkAdj edges v := by
  unfold mkAdj
  rw [List.mem_flatMap]
  refine ⟨e, he, ?_⟩
  rw [List.mem_append]
  right
  rw [if_pos hv]
  exact List.mem_singleton.mpr rfl

theorem flatMap_eq_map {α β : Type} (l : List α) (f : α → List β) (g : α → β)
    (h : ∀ x ∈ l, f x = [g x]) : l.flatMap f = l.map g := by
  induction l with
  | nil => rfl
  | cons a l ih =>
    rw [List.flatMap_cons, h a (List.mem_cons_self _ _), List.map_cons,
      ih fun x hx => h x (List.mem_cons_of_mem _ hx)]
    rfl

theorem indexPairs_decomp (n : ℕ) (hn : 1 ≤ n) :
    indexPairs n = ((List.range' 1 (n - 1)).map fun j => ((0 : ℕ), j)) ++
      ((List.range' 1 (n - 1)).flatMap fun i =>
        (List.range' (i + 1) (n - (i + 1))).map fun j => (i, j)) := by
  unfold indexPairs
  rw [List.range_eq_range']
  obtain ⟨m, rfl⟩ : ∃ m, n = m + 1 := ⟨n - 1, by omega⟩
  rw [List.range'_succ, List.flatMap_cons]
  simp

theorem mkAdj_append (e1 e2 : List GraphEdge) (v : String) :
    mkAdj (e1 ++ e2) v = mkAdj e1 v ++ mkAdj e2 v := List.flatMap_append e1 e2 _

theorem mkAdj_nil_of_ne (edges : List GraphEdge) (v : String)
    (h : ∀ e ∈ edges, e.from_ ≠ v ∧ e.to_ ≠ v) : mkAdj edges v = [] := by
  unfold mkAdj
  rw [List.flatMap_eq_nil_iff]
  intro e he
  rw [if_neg (h e he).1, if_neg (h e he).2]
  rfl

theorem mkAdj_of_from (edges : List GraphEdge) (v : String)
    (h : ∀ e ∈ edges, e.from_ = v ∧ e.to_ ≠ v) :
    mkAdj edges v = edges.map fun e => ⟨e.to_, e.weight, e.distance⟩ := by
  unfold mkAdj
  exact flatMap_eq_map _ _ _ fun e he => by rw [if_pos (h e he).1, if_neg (h e he).2]; rfl

/-- The adjacency list of `'source'` consists of one entry per node index
`j ∈ [1, length)` (in order: destination first, then the waypoints), with the
weight and distance of the edge `(0, j)`. -/
theorem mkAdj_source_eq (dCalc : ℚ → ℚ → ℚ → ℚ → ℚ) (jit : ℕ → ℚ) (saf : ℕ → ℕ → ℚ)
    (s t : Location) (rt : RouteType) :
    mkAdj (genEdges dCalc saf rt (genNodes dCalc jit s t)) "source" =
      (List.range' 1 ((genNodes dCalc jit s t).length - 1)).map fun j =>
        ⟨((genNodes dCalc jit s t).getD j default).id,
         edgeWeight rt saf 0 j (dCalc s.lat s.lng
           ((genNodes dCalc jit s t).getD j default).lat
           ((genNodes dCalc jit s t).getD j default).lng),
         dCalc s.lat s.lng ((genNodes dCalc jit s t).getD j default).lat
           ((genNodes dCalc jit s t).getD j default).lng⟩ := by
  have hlen := genNodes_length dCalc jit s t
  have h2 := numWaypointsOf_ge_two (dCalc s.lat s.lng t.lat t.lng)
  set nodes := genNodes dCalc jit s t with hnodes
  have hlen' : (genNodes dCalc jit s t).length = nodes.length := by rw [hnodes]
  unfold genEdges
  rw [indexPairs_decomp nodes.length (by omega), List.map_append, mkAdj_append]
  have hb : ∀ e ∈ (((List.range' 1 (nodes.length - 1)).flatMap fun i =>
      (List.range' (i + 1) (nodes.length - (i + 1))).map fun j => (i, j)).map
        fun p : ℕ × ℕ =>
          (⟨(nodes.getD p.1 default).id, (nodes.getD p.2 default).id,
            edgeWeight rt saf p.1 p.2 (dCalc (nodes.getD p.1 default).lat
              (nodes.getD p.1 default).lng (nodes.getD p.2 default).lat
              (nodes.getD p.2 default).lng),
            dCalc (nodes.getD p.1 default).lat (nodes.getD p.1 default).lng
              (nodes.getD p.2 default).lat (nodes.getD p.2 default).lng⟩ : GraphEdge)),
      e.from_ ≠ "source" ∧ e.to_ ≠ "source" := by
    intro e he
    rw [List.mem_map] at he
    obtain ⟨p, hp, rfl⟩ := he
    rw [List.mem_flatMap] at hp
    obtain ⟨i', hi', hj'⟩ := hp
    rw [List.mem_map] at hj'
    obtain ⟨j', hj'm, hpe⟩ := hj'
    subst hpe
    rw [List.mem_range'_1] at hi' hj'm
    constructor
    · exact genNodes_getD_id_ne_source dCalc jit s t i' hi'.1 (by omega)
    · exact genNodes_getD_id_ne_source dCalc jit s t j' (by omega) (by omega)
  rw [mkAdj_nil_of_ne _ _ hb, List.append_nil]
  have hf : ∀ e ∈ (((List.range' 1 (nodes.length - 1)).map fun j => ((0 : ℕ), j)).map
      fun p : ℕ × ℕ =>
        (⟨(nodes.getD p.1 default).id, (nodes.getD p.2 default).id,
          edgeWeight rt saf p.1 p.2 (dCalc (nodes.getD p.1 default).lat
            (nodes.getD p.1 default).lng (nodes.getD p.2 default).lat
            (nodes.getD p.2 default).lng),
          dCalc (nodes.getD p.1 default).lat (nodes.getD p.1 default).lng
            (nodes.getD p.2 default).lat (nodes.getD p.2 default).lng⟩ : GraphEdge)),
      e.from_ = "source" ∧ e.to_ ≠ "source" := by
    intro e he
    rw [List.mem_map] at he
    obtain ⟨p, hp, rfl⟩ := he
    rw [List.mem_map] at hp
    obtain ⟨j, hj, rfl⟩ := hp
    rw [List.mem_range'_1] at hj
    exact ⟨rfl, genNodes_getD_id_ne_source dCalc jit s t j hj.1 (by omega)⟩
  rw [mkAdj_of_from _ _ hf, List.map_map, List.map_map]
  rfl

/-! ### The state after the first loop iteration -/

theorem adjSource_nodeIds (dCalc : ℚ → ℚ → ℚ → ℚ → ℚ) (jit : ℕ → ℚ) (saf : ℕ → ℕ → ℚ)
    (s t : Location) (rt : RouteType) :
    (mkAdj (genEdges dCalc saf rt (genNodes dCalc jit s t)) "source").map Neighbor.nodeId =
      (List.range' 1 ((genNodes dCalc jit s t).length - 1)).map
        fun j => ((genNodes dCalc jit s t).getD j default).id := by
  rw [mkAdj_source_eq, List.map_map]
  rfl

theorem adjSource_ids_nodup (dCalc : ℚ → ℚ → ℚ → ℚ → ℚ) (jit : ℕ → ℚ) (saf : ℕ → ℕ → ℚ)
    (s t : Location) (rt : RouteType) :
    ((mkAdj (genEdges dCalc saf rt (genNodes dCalc jit s t)) "source").map
      Neighbor.nodeId).Nodup := by
  have hlen := genNodes_length dCalc jit s t
  rw [adjSource_nodeIds]
  refine (List.nodup_map_iff_inj_on (List.nodup_range' 1 _)).mpr ?_
  intro x hx y hy hxy
  rw [List.mem_range'_1] at hx hy
  exact genNodes_id_inj dCalc jit s t x y (by omega) (by omega) hxy

theorem adjSource_not_mem_source (dCalc : ℚ → ℚ → ℚ → ℚ → ℚ) (jit : ℕ → ℚ)
    (saf : ℕ → ℕ → ℚ) (s t : Location) (rt : RouteType) :
    "source" ∉ (mkAdj (genEdges dCalc saf rt (genNodes dCalc jit s t)) "source").map
      Neighbor.nodeId := by
  have hlen := genNodes_length dCalc jit s t
  rw [adjSource_nodeIds]
  intro h
  rw [List.mem_map] at h
  obtain ⟨j, hj, hid⟩ := h
  rw [List.mem_range'_1] at hj
  exact genNodes_getD_id_ne_source dCalc jit s t j hj.1 (by omega) hid

theorem adjSource_fresh (dCalc : ℚ → ℚ → ℚ → ℚ → ℚ) (jit : ℕ → ℚ) (saf : ℕ → ℕ → ℚ)
    (s t : Location) (rt : RouteType) (nb : Neighbor)
    (h : nb ∈ mkAdj (genEdges dCalc saf rt (genNodes dCalc jit s t)) "source") :
    ({ initState with pq := [] } : DState).dists nb.nodeId = none := by
  have hne : nb.nodeId ≠ "source" := by
    intro hc
    have hm := List.mem_map_of_mem Neighbor.nodeId h
    rw [hc] at hm
    exact adjSource_not_mem_source dCalc jit saf s t rt hm
  show (if nb.nodeId = "source" then some 0 else none) = none
  rw [if_neg hne]

/-- Full characterization of the state after the first loop iteration. -/
theorem st1_spec (dCalc : ℚ → ℚ → ℚ → ℚ → ℚ) (jit : ℕ → ℚ) (saf : ℕ → ℕ → ℚ)
    (s t : Location) (rt : RouteType) :
    (st1Of dCalc jit saf s t rt).dists "source" = some 0 ∧
    (st1Of dCalc jit saf s t rt).prev "source" = none ∧
    (∀ nb ∈ mkAdj (genEdges dCalc saf rt (genNodes dCalc jit s t)) "source",
      (st1Of dCalc jit saf s t rt).dists nb.nodeId = some (0 + nb.weight) ∧
      (st1Of dCalc jit saf s t rt).prev nb.nodeId = some "source") ∧
    (st1Of dCalc jit saf s t rt).pq =
      (mkAdj (genEdges dCalc saf rt (genNodes dCalc jit s t)) "source").foldl
        (fun acc nb => pqInsert nb.nodeId (0 + nb.weight) acc) [] := by
  have h := relaxAll_fresh "source"
    (mkAdj (genEdges dCalc saf rt (genNodes dCalc jit s t)) "source")
    ({ initState with pq := [] }) (by rfl)
    (fun nb hnb => adjSource_fresh dCalc jit saf s t rt nb hnb)
    (adjSource_not_mem_source dCalc jit saf s t rt)
    (adjSource_ids_nodup dCalc jit saf s t rt)
  obtain ⟨hP5, hP3, hP4⟩ := h
  have hsrc := hP5 "source" (adjSource_not_mem_source dCalc jit saf s t rt)
  exact ⟨hsrc.1.trans (by rfl), hsrc.2.trans (by rfl), hP3, hP4⟩

/-- The destination entry of the adjacency list of the source. -/
theorem destEntry_mem_adjSource (dCalc : ℚ → ℚ → ℚ → ℚ → ℚ) (jit : ℕ → ℚ)
    (saf : ℕ → ℕ → ℚ) (s t : Location) (rt : RouteType) :
    (⟨"destination", edgeWeight rt saf 0 1 (dCalc s.lat s.lng t.lat t.lng),
      dCalc s.lat s.lng t.lat t.lng⟩ : Neighbor) ∈
      mkAdj (genEdges dCalc saf rt (genNodes dCalc jit s t)) "source" := by
  have hlen := genNodes_length dCalc jit s t
  have h2 := numWaypointsOf_ge_two (dCalc s.lat s.lng t.lat t.lng)
  rw [mkAdj_source_eq]
  rw [List.mem_map]
  exact ⟨1, by rw [List.mem_range'_1]; omega, rfl⟩

theorem st1_prev_dest (dCalc : ℚ → ℚ → ℚ → ℚ → ℚ) (jit : ℕ → ℚ) (saf : ℕ → ℕ → ℚ)
    (s t : Location) (rt : RouteType) :
    (st1Of dCalc jit saf s t rt).prev "destination" = some "source" :=
  ((st1_spec dCalc jit saf s t rt).2.2.1 _
    (destEntry_mem_adjSource dCalc jit saf s t rt)).2

theorem st1_dists_dest (dCalc : ℚ → ℚ → ℚ → ℚ → ℚ) (jit : ℕ → ℚ) (saf : ℕ → ℕ → ℚ)
    (s t : Location) (rt : RouteType) :
    (st1Of dCalc jit saf s t rt).dists "destination" =
      some (0 + edgeWeight rt saf 0 1 (dCalc s.lat s.lng t.lat t.lng)) :=
  ((st1_spec dCalc jit saf s t rt).2.2.1 _
    (destEntry_mem_adjSource dCalc jit saf s t rt)).1

theorem st1_prev_nonsource (dCalc : ℚ → ℚ → ℚ → ℚ → ℚ) (jit : ℕ → ℚ) (saf : ℕ → ℕ → ℚ)
    (s t : Location) (rt : RouteType) (v : String)
    (hv : v ∈ (genNodes dCalc jit s t).map GraphNode.id) (hvs : v ≠ "source") :
    (st1Of dCalc jit saf s t rt).prev v = some "source" := by
  have hlen := genNodes_length dCalc jit s t
  rw [List.mem_map] at hv
  obtain ⟨nd, hnd, hid⟩ := hv
  rw [List.mem_iff_getElem] at hnd
  obtain ⟨j, hj, hjnd⟩ := hnd
  have hj0 : j ≠ 0 := by
    intro hc
    subst hc
    apply hvs
    rw [← hid, ← hjnd]
    rfl
  have hentry : (⟨((genNodes dCalc jit s t).getD j default).id,
      edgeWeight rt saf 0 j (dCalc s.lat s.lng
        ((genNodes dCalc jit s t).getD j default).lat
        ((genNodes dCalc jit s t).getD j default).lng),
      dCalc s.lat s.lng ((genNodes dCalc jit s t).getD j default).lat
        ((genNodes dCalc jit s t).getD j default).lng⟩ : Neighbor) ∈
      mkAdj (genEdges dCalc saf rt (genNodes dCalc jit s t)) "source" := by
    rw [mkAdj_source_eq, List.mem_map]
    exact ⟨j, by rw [List.mem_range'_1]; omega, rfl⟩
  have := ((st1_spec dCalc jit saf s t rt).2.2.1 _ hentry).2
  rw [← hid, ← hjnd]
  rw [List.getD_eq_getElem _ _ hj] at this
  exact this

theorem st1_pq_mem (dCalc : ℚ → ℚ → ℚ → ℚ → ℚ) (jit : ℕ → ℚ) (saf : ℕ → ℕ → ℚ)
    (s t : Location) (rt : RouteType) (x : String × ℚ)
    (hx : x ∈ (st1Of dCalc jit saf s t rt).pq) :
    ∃ nb ∈ mkAdj (genEdges dCalc saf rt (genNodes dCalc jit s t)) "source",
      x = (nb.nodeId, 0 + nb.weight) := by
  rw [(st1_spec dCalc jit saf s t rt).2.2.2] at hx
  rcases (foldl_pqInsert_mem _ _ _).mp hx with h1 | h2
  · exact absurd h1 (List.not_mem_nil _)
  · exact h2

theorem st1_pq_ne_nil (dCalc : ℚ → ℚ → ℚ → ℚ → ℚ) (jit : ℕ → ℚ) (saf : ℕ → ℕ → ℚ)
    (s t : Location) (rt : RouteType) : (st1Of dCalc jit saf s t rt).pq ≠ [] := by
  intro hc
  have hm : (("destination",
      0 + edgeWeight rt saf 0 1 (dCalc s.lat s.lng t.lat t.lng)) : String × ℚ) ∈
      (st1Of dCalc jit saf s t rt).pq := by
    rw [(st1_spec dCalc jit saf s t rt).2.2.2]
    exact (foldl_pqInsert_mem _ _ _).mpr
      (Or.inr ⟨_, destEntry_mem_adjSource dCalc jit saf s t rt, rfl⟩)
  rw [hc] at hm
  exact List.not_mem_nil _ hm

/-! ### Invariants preserved by the loop -/

theorem relaxOne_good (idsL : List String) (cur : String) (st : DState) (nbr : Neighbor)
    (hcur : cur ∈ idsL) (hnbr : nbr.nodeId ∈ idsL)
    (hprev : ∀ v u, st.prev v = some u → u ∈ idsL)
    (hpq : ∀ x ∈ st.pq, x.1 ∈ idsL) :
    (∀ v u, (relaxOne cur st nbr).prev v = some u → u ∈ idsL) ∧
    (∀ x ∈ (relaxOne cur st nbr).pq, x.1 ∈ idsL) := by
  unfold relaxOne
  cases st.dists cur with
  | none => exact ⟨hprev, hpq⟩
  | some q =>
    dsimp only
    split
    · constructor
      · intro v u h
        dsimp only at h
        by_cases hv : v = nbr.nodeId
        · subst hv
          rw [upd_same] at h
          cases h
          exact hcur
        · rw [upd_ne _ _ _ _ hv] at h
          exact hprev v u h
      · intro x hx
        dsimp only at hx
        rcases (pqInsert_mem x _ _ _).mp hx with h1 | h2
        · subst h1
          exact hnbr
        · exact hpq x h2
    · exact ⟨hprev, hpq⟩

theorem foldl_relax_good (idsL : List String) (cur : String) (nbrs : List Neighbor)
    (st : DState) (hcur : cur ∈ idsL) (hnbrs : ∀ nb ∈ nbrs, nb.nodeId ∈ idsL)
    (hprev : ∀ v u, st.prev v = some u → u ∈ idsL)
    (hpq : ∀ x ∈ st.pq, x.1 ∈ idsL) :
    (∀ v u, (nbrs.foldl (relaxOne cur) st).prev v = some u → u ∈ idsL) ∧
    (∀ x ∈ (nbrs.foldl (relaxOne cur) st).pq, x.1 ∈ idsL) := by
  induction nbrs generalizing st with
  | nil => exact ⟨hprev, hpq⟩
  | cons nb rest ih =>
    have h1 := relaxOne_good idsL cur st nb hcur (hnbrs nb (List.mem_cons_self _ _)) hprev hpq
    exact ih _ (fun nb' hm => hnbrs nb' (List.mem_cons_of_mem _ hm)) h1.1 h1.2

theorem dijkstraLoop_good (idsL : List String) (adj : String → List Neighbor)
    (hadj : ∀ v, ∀ nb ∈ adj v, nb.nodeId ∈ idsL) (fuel : ℕ) (st st' : DState)
    (hprev : ∀ v u, st.prev v = some u → u ∈ idsL)
    (hpq : ∀ x ∈ st.pq, x.1 ∈ idsL)
    (hL : dijkstraLoop adj fuel st = some st') :
    (∀ v u, st'.prev v = some u → u ∈ idsL) ∧ (∀ x ∈ st'.pq, x.1 ∈ idsL) := by
  induction fuel generalizing st with
  | zero => exact absurd hL (by simp [dijkstraLoop])
  | succ f ih =>
    rw [dijkstraLoop] at hL
    cases hpqe : st.pq with
    | nil =>
      rw [hpqe] at hL
      cases hL
      exact ⟨hprev, hpq⟩
    | cons hd rest =>
      obtain ⟨cur, p⟩ := hd
      rw [hpqe] at hL
      dsimp only at hL
      have hrest : ∀ x ∈ rest, (x : String × ℚ).1 ∈ idsL := fun x hx =>
        hpq x (by rw [hpqe]; exact List.mem_cons_of_mem _ hx)
      by_cases hcur : cur = "destination"
      · rw [if_pos hcur] at hL
        cases hL
        exact ⟨hprev, hrest⟩
      · rw [if_neg hcur] at hL
        have hcin : cur ∈ idsL := hpq (cur, p) (by rw [hpqe]; exact List.mem_cons_self _ _)
        have h1 := foldl_relax_good idsL cur (adj cur) { st with pq := rest } hcin
          (hadj cur) hprev hrest
        exact ih _ h1.1 h1.2 hL

theorem mkAdj_nodeId_mem (dCalc : ℚ → ℚ → ℚ → ℚ → ℚ) (jit : ℕ → ℚ) (saf : ℕ → ℕ → ℚ)
    (s t : Location) (rt : RouteType) (v : String) (nb : Neighbor)
    (h : nb ∈ mkAdj (genEdges dCalc saf rt (genNodes dCalc jit s t)) v) :
    nb.nodeId ∈ (genNodes dCalc jit s t).map GraphNode.id := by
  obtain ⟨e, he, hcase⟩ := mkAdj_mem _ _ _ h
  obtain ⟨i, j, hij, hjlen, rfl⟩ := genEdges_mem dCalc saf rt _ e he
  have hmj : (genNodes dCalc jit s t).getD j default ∈ genNodes dCalc jit s t := by
    rw [List.getD_eq_getElem _ _ hjlen]
    exact List.getElem_mem _
  have hmi : (genNodes dCalc jit s t).getD i default ∈ genNodes dCalc jit s t := by
    rw [List.getD_eq_getElem _ _ (by omega)]
    exact List.getElem_mem _
  rcases hcase with ⟨_, rfl⟩ | ⟨_, rfl⟩
  · exact List.mem_map_of_mem GraphNode.id hmj
  · exact List.mem_map_of_mem GraphNode.id hmi

/-! ### Reconstruction of the returned path -/

theorem walkIds_dest_source (prev : String → Option String)
    (hd : prev "destination" = some "source") (hs : prev "source" = none)
    (fuel : ℕ) (h2 : 2 ≤ fuel) :
    walkIds prev fuel "destination" = some ["destination", "source"] := by
  obtain ⟨f, rfl⟩ : ∃ f, fuel = f + 2 := ⟨fuel - 2, by omega⟩
  show walkIds prev (f + 1 + 1) "destination" = _
  rw [walkIds.eq_def]
  dsimp only
  rw [hd]
  dsimp only
  rw [walkIds.eq_def]
  dsimp only
  rw [hs]
  rfl

theorem genNodes_find_dest (dCalc : ℚ → ℚ → ℚ → ℚ → ℚ) (jit : ℕ → ℚ) (s t : Location) :
    (genNodes dCalc jit s t).find? (fun n => n.id = "destination") = some (destNodeOf t) := by
  show (sourceNodeOf s :: destNodeOf t :: _).find? _ = _
  rw [List.find?_cons_of_neg _ (by simp [sourceNodeOf]),
    List.find?_cons_of_pos _ (by simp [destNodeOf])]

theorem genNodes_find_source (dCalc : ℚ → ℚ → ℚ → ℚ → ℚ) (jit : ℕ → ℚ) (s t : Location) :
    (genNodes dCalc jit s t).find? (fun n => n.id = "source") = some (sourceNodeOf s) := by
  show (sourceNodeOf s :: destNodeOf t :: _).find? _ = _
  rw [List.find?_cons_of_pos _ (by simp [sourceNodeOf])]

theorem reconstruct_canonical (dCalc : ℚ → ℚ → ℚ → ℚ → ℚ) (jit : ℕ → ℚ) (s t : Location)
    (prev : String → Option String) (hd : prev "destination" = some "source")
    (hs : prev "source" = none) (fuel : ℕ) (h2 : 2 ≤ fuel) :
    reconstructPath (genNodes dCalc jit s t) prev fuel =
      some [sourceNodeOf s, destNodeOf t] := by
  unfold reconstructPath
  rw [walkIds_dest_source prev hd hs fuel h2]
  simp [List.filterMap_cons, genNodes_find_dest, genNodes_find_source]

/-! ### Characterization of every returned route -/

theorem findShortestPath_def (dCalc : ℚ → ℚ → ℚ → ℚ → ℚ)
    (bearingL : ℚ → ℚ → ℚ → ℚ → String) (jit : ℕ → ℚ) (saf : ℕ → ℕ → ℚ) (fuel : ℕ)
    (s t : Location) (rt : RouteType) :
    findShortestPath dCalc bearingL jit saf fuel s t rt =
      match dijkstraLoop (mkAdj (genEdges dCalc saf rt (genNodes dCalc jit s t)))
          fuel initState with
      | none => none
      | some st =>
        match reconstructPath (genNodes dCalc jit s t) st.prev fuel with
        | none => none
        | some path =>
          some { path := path
                 totalDistance := roundTenth (sumLegs dCalc path)
                 totalTime := jsRound (sumLegs dCalc path * (6 / 5))
                 algorithm := "Dijkstra\x27s"
                 directions := mkDirections dCalc bearingL path } := rfl

theorem dijkstraLoop_init_step (adj : String → List Neighbor) (fuel : ℕ) :
    dijkstraLoop adj (fuel + 1) initState =
      dijkstraLoop adj fuel ((adj "source").foldl (relaxOne "source")
        { initState with pq := [] }) := rfl

/-- Whenever `findShortestPath` returns at all, the second dequeued node was
`'destination'` and the returned route is the direct two-node route.  As soon
as any other node is processed, the falsy-zero read
`distances.get(source) || Infinity` lets that node relax the source, the
predecessor map becomes cyclic among the node ids, and the reconstruction
walk never reaches a `null` predecessor. -/
theorem find_eq_some_characterize (dCalc : ℚ → ℚ → ℚ → ℚ → ℚ)
    (bearingL : ℚ → ℚ → ℚ → ℚ → String) (jit : ℕ → ℚ) (saf : ℕ → ℕ → ℚ) (fuel : ℕ)
    (s t : Location) (rt : RouteType) (r : RouteResult)
    (h : findShortestPath dCalc bearingL jit saf fuel s t rt = some r) :
    r = canonicalResult dCalc bearingL s t ∧
    ∃ p rest, (st1Of dCalc jit saf s t rt).pq = ("destination", p) :: rest := by
  rw [findShortestPath_def] at h
  cases hL : dijkstraLoop (mkAdj (genEdges dCalc saf rt (genNodes dCalc jit s t)))
      fuel initState with
  | none =>
    rw [hL] at h
    exact absurd h (by simp)
  | some st =>
  rw [hL] at h
  dsimp only at h
  cases hW : reconstructPath (genNodes dCalc jit s t) st.prev fuel with
  | none =>
    rw [hW] at h
    exact absurd h (by simp)
  | some path =>
  rw [hW] at h
  dsimp only at h
  match fuel, hL, hW with
  | 0, hL, hW => exact absurd hL (by simp [dijkstraLoop])
  | (f + 1), hL, hW =>
  rw [dijkstraLoop_init_step] at hL
  have hst1 : ((mkAdj (genEdges dCalc saf rt (genNodes dCalc jit s t))) "source").foldl
      (relaxOne "source") { initState with pq := [] } = st1Of dCalc jit saf s t rt := rfl
  rw [hst1] at hL
  match f, hL, hW with
  | 0, hL, hW => exact absurd hL (by simp [dijkstraLoop])
  | (f' + 1), hL, hW =>
  rw [dijkstraLoop] at hL
  cases hpq : (st1Of dCalc jit saf s t rt).pq with
  | nil => exact absurd hpq (st1_pq_ne_nil dCalc jit saf s t rt)
  | cons hd rest =>
  obtain ⟨cur, p⟩ := hd
  rw [hpq] at hL
  dsimp only at hL
  by_cases hcur : cur = "destination"
  · subst hcur
    rw [if_pos rfl] at hL
    cases hL
    have hrec := reconstruct_canonical dCalc jit s t (st1Of dCalc jit saf s t rt).prev
      (st1_prev_dest dCalc jit saf s t rt) ((st1_spec dCalc jit saf s t rt).2.1)
      (f' + 1 + 1) (by omega)
    dsimp only at hW
    rw [hrec] at hW
    cases hW
    cases h
    exact ⟨rfl, p, rest, rfl⟩
  · rw [if_neg hcur] at hL
    exfalso
    have hlen := genNodes_length dCalc jit s t
    have hcurmem : ((cur, p) : String × ℚ) ∈ (st1Of dCalc jit saf s t rt).pq := by
      rw [hpq]
      exact List.mem_cons_self _ _
    obtain ⟨nb, hnbmem, hnbeq⟩ := st1_pq_mem dCalc jit saf s t rt (cur, p) hcurmem
    have hcureq : cur = nb.nodeId := congrArg Prod.fst hnbeq
    have hnb' := hnbmem
    rw [mkAdj_source_eq, List.mem_map] at hnb'
    obtain ⟨j, hjmem, hjeq⟩ := hnb'
    rw [List.mem_range'_1] at hjmem
    have hjlt : j < (genNodes dCalc jit s t).length := by omega
    have hcurid : cur = ((genNodes dCalc jit s t).getD j default).id := by
      rw [hcureq, ← hjeq]
    have hedge := genEdges_mem_of_pair dCalc saf rt (genNodes dCalc jit s t) 0 j
      (by omega) hjlt
    have hsrcadj := mkAdj_mem_of_to _ cur _ hedge hcurid.symm
    have hdcur : ∃ q0, (st1Of dCalc jit saf s t rt).dists cur = some q0 := by
      rw [hcureq]
      exact ⟨_, ((st1_spec dCalc jit saf s t rt).2.2.1 nb hnbmem).1⟩
    have hhits := foldl_relax_hits cur
      (mkAdj (genEdges dCalc saf rt (genNodes dCalc jit s t)) cur)
      { st1Of dCalc jit saf s t rt with pq := rest } hdcur
      ((st1_spec dCalc jit saf s t rt).1)
      ⟨_, hsrcadj, by rw [genNodes_getD_zero]; rfl⟩
    have hstp := dijkstraLoop_prev_some _ f' _ st "source" hhits hL
    have hadj : ∀ v, ∀ nb' ∈ mkAdj (genEdges dCalc saf rt (genNodes dCalc jit s t)) v,
        nb'.nodeId ∈ (genNodes dCalc jit s t).map GraphNode.id :=
      fun v nb' hm => mkAdj_nodeId_mem dCalc jit saf s t rt v nb' hm
    have hsrcmem : "source" ∈ (genNodes dCalc jit s t).map GraphNode.id :=
      List.mem_map_of_mem GraphNode.id (List.mem_cons_self _ _)
    have hcurin : cur ∈ (genNodes dCalc jit s t).map GraphNode.id := by
      rw [hcurid, List.getD_eq_getElem _ _ hjlt]
      exact List.mem_map_of_mem GraphNode.id (List.getElem_mem _)
    have hg1 := foldl_relax_good ((genNodes dCalc jit s t).map GraphNode.id) "source"
      (mkAdj (genEdges dCalc saf rt (genNodes dCalc jit s t)) "source")
      { initState with pq := [] } hsrcmem (hadj "source")
      (by intro v u' hc; exact absurd hc (by simp [initState]))
      (by intro x hx; exact absurd hx (List.not_mem_nil _))
    rw [hst1] at hg1
    have hg2 := foldl_relax_good ((genNodes dCalc jit s t).map GraphNode.id) cur
      (mkAdj (genEdges dCalc saf rt (genNodes dCalc jit s t)) cur)
      { st1Of dCalc jit saf s t rt with pq := rest } hcurin (hadj cur)
      (by intro v u' hc; exact hg1.1 v u' hc)
      (by intro x hx; dsimp only at hx
          exact hg1.2 x (by rw [hpq]; exact List.mem_cons_of_mem _ hx))
    have hgood := dijkstraLoop_good ((genNodes dCalc jit s t).map GraphNode.id) _ hadj
      f' _ st hg2.1 hg2.2 hL
    have htrap : ∀ v ∈ (genNodes dCalc jit s t).map GraphNode.id,
        ∃ u', st.prev v = some u' ∧ u' ∈ (genNodes dCalc jit s t).map GraphNode.id := by
      intro v hv
      by_cases hvs : v = "source"
      · subst hvs
        obtain ⟨u', hu'⟩ := hstp
        exact ⟨u', hu', hgood.1 _ _ hu'⟩
      · have h1 := st1_prev_nonsource dCalc jit saf s t rt v hv hvs
        have h2 := foldl_relax_prev_some cur
          (mkAdj (genEdges dCalc saf rt (genNodes dCalc jit s t)) cur)
          { st1Of dCalc jit saf s t rt with pq := rest } v ⟨"source", h1⟩
        obtain ⟨u', hu'⟩ := dijkstraLoop_prev_some _ f' _ st v h2 hL
        exact ⟨u', hu', hgood.1 _ _ hu'⟩
    have hdmem : "destination" ∈ (genNodes dCalc jit s t).map GraphNode.id :=
      List.mem_map_of_mem GraphNode.id (List.mem_cons_of_mem _ (List.mem_cons_self _ _))
    have hwalk := walkIds_none_of_trapped st.prev _ htrap "destination" hdmem (f' + 1 + 1)
    unfold reconstructPath at hW
    rw [hwalk] at hW
    exact absurd hW (by simp)

/-! ### The degenerate case: source and destination at distance zero -/

/-- With `routeType = 'shortest'`, a nonnegative distance function and
`distance(source, destination) = 0`, the destination sits at the head of the
queue after the first iteration (it is relaxed first and the stable sort
keeps it in front of the equal-or-larger waypoint priorities), so the second
dequeue breaks the loop. -/
theorem st1_pq_head_of_zero (dCalc : ℚ → ℚ → ℚ → ℚ → ℚ) (jit : ℕ → ℚ) (saf : ℕ → ℕ → ℚ)
    (s t : Location) (hnn : ∀ a b c e, 0 ≤ dCalc a b c e)
    (hD : dCalc s.lat s.lng t.lat t.lng = 0) :
    ∃ rest, (st1Of dCalc jit saf s t RouteType.shortest).pq =
      ("destination", 0) :: rest := by
  have hlen := genNodes_length dCalc jit s t
  have h2 := numWaypointsOf_ge_two (dCalc s.lat s.lng t.lat t.lng)
  rw [(st1_spec dCalc jit saf s t RouteType.shortest).2.2.2,
    mkAdj_source_eq dCalc jit saf s t RouteType.shortest]
  have hr : List.range' 1 ((genNodes dCalc jit s t).length - 1) =
      1 :: List.range' 2 ((genNodes dCalc jit s t).length - 2) := by
    have h3 : (genNodes dCalc jit s t).length - 1 =
        ((genNodes dCalc jit s t).length - 2) + 1 := by omega
    rw [h3, List.range'_succ]
  rw [hr, List.map_cons, List.foldl_cons]
  have hw : ∀ nb ∈ (List.range' 2 ((genNodes dCalc jit s t).length - 2)).map
      (fun j => (⟨((genNodes dCalc jit s t).getD j default).id,
        edgeWeight RouteType.shortest saf 0 j (dCalc s.lat s.lng
          ((genNodes dCalc jit s t).getD j default).lat
          ((genNodes dCalc jit s t).getD j default).lng),
        dCalc s.lat s.lng ((genNodes dCalc jit s t).getD j default).lat
          ((genNodes dCalc jit s t).getD j default).lng⟩ : Neighbor)),
      0 ≤ nb.weight := by
    intro nb hm
    rw [List.mem_map] at hm
    obtain ⟨j, _, rfl⟩ := hm
    exact hnn _ _ _ _
  obtain ⟨t', ht'⟩ := foldl_pqInsert_head _ "destination" [] hw
  refine ⟨t', ?_⟩
  rw [← ht']
  congr 1
  show pqInsert ((genNodes dCalc jit s t).getD 1 default).id
      (0 + edgeWeight RouteType.shortest saf 0 1 (dCalc s.lat s.lng
        ((genNodes dCalc jit s t).getD 1 default).lat
        ((genNodes dCalc jit s t).getD 1 default).lng)) [] = [("destination", 0)]
  rw [genNodes_getD_one]
  show [("destination", 0 + dCalc s.lat s.lng t.lat t.lng)] = [("destination", (0 : ℚ))]
  rw [hD]
  norm_num

/-- With `distance(source, destination) = 0` (in particular for coincident
endpoints) and fuel at least 2, the engine terminates and returns the
canonical direct route. -/
theorem find_returns_of_zero (dCalc : ℚ → ℚ → ℚ → ℚ → ℚ)
    (bearingL : ℚ → ℚ → ℚ → ℚ → String) (jit : ℕ → ℚ) (saf : ℕ → ℕ → ℚ) (fuel : ℕ)
    (s t : Location) (hfuel : 2 ≤ fuel) (hnn : ∀ a b c e, 0 ≤ dCalc a b c e)
    (hD : dCalc s.lat s.lng t.lat t.lng = 0) :
    findShortestPath dCalc bearingL jit saf fuel s t RouteType.shortest =
      some (canonicalResult dCalc bearingL s t) := by
  obtain ⟨f, rfl⟩ : ∃ f, fuel = f + 2 := ⟨fuel - 2, by omega⟩
  obtain ⟨rest, hrest⟩ := st1_pq_head_of_zero dCalc jit saf s t hnn hD
  have hloop : dijkstraLoop (mkAdj (genEdges dCalc saf RouteType.shortest
      (genNodes dCalc jit s t))) (f + 2) initState =
      some { st1Of dCalc jit saf s t RouteType.shortest with pq := rest } := by
    rw [show f + 2 = (f + 1) + 1 from rfl, dijkstraLoop_init_step]
    have hst1 : ((mkAdj (genEdges dCalc saf RouteType.shortest (genNodes dCalc jit s t)))
        "source").foldl (relaxOne "source") { initState with pq := [] } =
        st1Of dCalc jit saf s t RouteType.shortest := rfl
    rw [hst1, dijkstraLoop, hrest]
    dsimp only
    rw [if_pos rfl]
  rw [findShortestPath_def, hloop]
  have hrec := reconstruct_canonical dCalc jit s t
    (st1Of dCalc jit saf s t RouteType.shortest).prev
    (st1_prev_dest dCalc jit saf s t RouteType.shortest)
    ((st1_spec dCalc jit saf s t RouteType.shortest).2.1) (f + 2) (by omega)
  dsimp only
  rw [hrec]
  rfl

/-! ### Lower-bound invariant of the solver (shortest mode) -/

theorem genNodes_id_unique (dCalc : ℚ → ℚ → ℚ → ℚ → ℚ) (jit : ℕ → ℚ) (s t : Location)
    (nd : GraphNode) (hnd : nd ∈ genNodes dCalc jit s t) (i : ℕ)
    (hi : i < (genNodes dCalc jit s t).length)
    (hid : nd.id = ((genNodes dCalc jit s t).getD i default).id) :
    nd = (genNodes dCalc jit s t).getD i default := by
  rw [List.mem_iff_getElem] at hnd
  obtain ⟨k, hk, hknd⟩ := hnd
  have hki : k = i := genNodes_id_inj dCalc jit s t k i hk hi
    (by rw [List.getD_eq_getElem _ _ hk, hknd, hid])
  subst hki
  rw [List.getD_eq_getElem _ _ hk, hknd]

/-- In `'shortest'` mode every adjacency entry carries exactly the
`calculateDistance` of its two endpoint nodes (oriented from the node whose
list it sits in, using symmetry for mirrored edges). -/
theorem mkAdj_weight_shortest (dCalc : ℚ → ℚ → ℚ → ℚ → ℚ) (jit : ℕ → ℚ) (saf : ℕ → ℕ → ℚ)
    (s t : Location) (hsym : ∀ a b c e, dCalc a b c e = dCalc c e a b)
    (v : String) (nb : Neighbor)
    (h : nb ∈ mkAdj (genEdges dCalc saf RouteType.shortest (genNodes dCalc jit s t)) v)
    (ndc : GraphNode) (hndcm : ndc ∈ genNodes dCalc jit s t) (hndcid : ndc.id = v) :
    ∃ ndn ∈ genNodes dCalc jit s t, ndn.id = nb.nodeId ∧
      nb.weight = dCalc ndc.lat ndc.lng ndn.lat ndn.lng := by
  obtain ⟨e, he, hcase⟩ := mkAdj_mem _ _ _ h
  obtain ⟨i, j, hij, hjlen, rfl⟩ := genEdges_mem dCalc saf RouteType.shortest _ e he
  have hilen : i < (genNodes dCalc jit s t).length := by omega
  have hjm : (genNodes dCalc jit s t).getD j default ∈ genNodes dCalc jit s t := by
    rw [List.getD_eq_getElem _ _ hjlen]
    exact List.getElem_mem _
  have him : (genNodes dCalc jit s t).getD i default ∈ genNodes dCalc jit s t := by
    rw [List.getD_eq_getElem _ _ hilen]
    exact List.getElem_mem _
  rcases hcase with ⟨hfv, rfl⟩ | ⟨htv, rfl⟩
  · have hndc : ndc = (genNodes dCalc jit s t).getD i default :=
      genNodes_id_unique dCalc jit s t ndc hndcm i hilen (by rw [hndcid, ← hfv])
    subst hndc
    exact ⟨(genNodes dCalc jit s t).getD j default, hjm, rfl, rfl⟩
  · have hndc : ndc = (genNodes dCalc jit s t).getD j default :=
      genNodes_id_unique dCalc jit s t ndc hndcm j hjlen (by rw [hndcid, ← htv])
    subst hndc
    exact ⟨(genNodes dCalc jit s t).getD i default, him, rfl, hsym _ _ _ _⟩

/-- Every finite solver distance is at least the `calculateDistance` from the
source to the node carrying that id (invariant preserved by one
relaxation). -/
theorem relaxOne_LB (dCalc : ℚ → ℚ → ℚ → ℚ → ℚ) (jit : ℕ → ℚ) (saf : ℕ → ℕ → ℚ)
    (s t : Location) (hsym : ∀ a b c e, dCalc a b c e = dCalc c e a b)
    (htri : ∀ a b c d e f : ℚ, dCalc a b e f ≤ dCalc a b c d + dCalc c d e f)
    (cur : String) (st : DState) (nbr : Neighbor)
    (hnbr : nbr ∈ mkAdj (genEdges dCalc saf RouteType.shortest (genNodes dCalc jit s t)) cur)
    (hLB : ∀ v q, st.dists v = some q → ∃ nd ∈ genNodes dCalc jit s t, nd.id = v ∧
      dCalc s.lat s.lng nd.lat nd.lng ≤ q) :
    ∀ v q, (relaxOne cur st nbr).dists v = some q →
      ∃ nd ∈ genNodes dCalc jit s t, nd.id = v ∧ dCalc s.lat s.lng nd.lat nd.lng ≤ q := by
  intro v q h
  unfold relaxOne at h
  cases hd : st.dists cur with
  | none =>
    rw [hd] at h
    exact hLB v q h
  | some q0 =>
    rw [hd] at h
    dsimp only at h
    split at h
    · dsimp only at h
      by_cases hv : v = nbr.nodeId
      · subst hv
        rw [upd_same] at h
        cases h
        obtain ⟨ndc, hndcm, hndcid, hndcle⟩ := hLB cur q0 hd
        obtain ⟨ndn, hndnm, hndnid, hw⟩ :=
          mkAdj_weight_shortest dCalc jit saf s t hsym cur nbr hnbr ndc hndcm hndcid
        refine ⟨ndn, hndnm, hndnid, ?_⟩
        have h1 := htri s.lat s.lng ndc.lat ndc.lng ndn.lat ndn.lng
        rw [hw]
        linarith
      · rw [upd_ne _ _ _ _ hv] at h
        exact hLB v q h
    · exact hLB v q h

/-- With `distance(source, destination) ≠ 0`, no relaxation can improve the
destination below its direct distance, so its entry never changes. -/
theorem relaxOne_dest_const (dCalc : ℚ → ℚ → ℚ → ℚ → ℚ) (jit : ℕ → ℚ) (saf : ℕ → ℕ → ℚ)
    (s t : Location) (hsym : ∀ a b c e, dCalc a b c e = dCalc c e a b)
    (htri : ∀ a b c d e f : ℚ, dCalc a b e f ≤ dCalc a b c d + dCalc c d e f)
    (hD0 : dCalc s.lat s.lng t.lat t.lng ≠ 0)
    (cur : String) (st : DState) (nbr : Neighbor)
    (hnbr : nbr ∈ mkAdj (genEdges dCalc saf RouteType.shortest (genNodes dCalc jit s t)) cur)
    (hLB : ∀ v q, st.dists v = some q → ∃ nd ∈ genNodes dCalc jit s t, nd.id = v ∧
      dCalc s.lat s.lng nd.lat nd.lng ≤ q)
    (hdest : st.dists "destination" = some (dCalc s.lat s.lng t.lat t.lng)) :
    (relaxOne cur st nbr).dists "destination" =
      some (dCalc s.lat s.lng t.lat t.lng) := by
  unfold relaxOne
  cases hd : st.dists cur with
  | none => exact hdest
  | some q0 =>
    dsimp only
    split
    next hfire =>
      dsimp only
      by_cases hv : ("destination" : String) = nbr.nodeId
      · exfalso
        rw [← hv, hdest] at hfire
        rw [show readCmp (some (dCalc s.lat s.lng t.lat t.lng)) =
            some (dCalc s.lat s.lng t.lat t.lng) by simp [readCmp, hD0]] at hfire
        have hlt : q0 + nbr.weight < dCalc s.lat s.lng t.lat t.lng := by
          simpa [optLtB] using hfire
        obtain ⟨ndc, hndcm, hndcid, hndcle⟩ := hLB cur q0 hd
        obtain ⟨ndn, hndnm, hndnid, hw⟩ :=
          mkAdj_weight_shortest dCalc jit saf s t hsym cur nbr hnbr ndc hndcm hndcid
        have hndn : ndn = destNodeOf t := by
          have := genNodes_id_unique dCalc jit s t ndn hndnm 1
            (by rw [genNodes_length]
                have := numWaypointsOf_ge_two (dCalc s.lat s.lng t.lat t.lng)
                omega)
            (by rw [genNodes_getD_one, hndnid, ← hv]; rfl)
          rw [this, genNodes_getD_one]
        subst hndn
        have h1 := htri s.lat s.lng ndc.lat ndc.lng (destNodeOf t).lat (destNodeOf t).lng
        have h2 : dCalc s.lat s.lng (destNodeOf t).lat (destNodeOf t).lng =
            dCalc s.lat s.lng t.lat t.lng := rfl
        rw [h2] at h1
        rw [hw] at hlt
        linarith
      · rw [upd_ne _ _ _ _ fun hc => hv hc]
        exact hdest
    next hfire => exact hdest

theorem foldl_relax_LB_dest (dCalc : ℚ → ℚ → ℚ → ℚ → ℚ) (jit : ℕ → ℚ) (saf : ℕ → ℕ → ℚ)
    (s t : Location) (hsym : ∀ a b c e, dCalc a b c e = dCalc c e a b)
    (htri : ∀ a b c d e f : ℚ, dCalc a b e f ≤ dCalc a b c d + dCalc c d e f)
    (hD0 : dCalc s.lat s.lng t.lat t.lng ≠ 0) (cur : String) (nbrs : List Neighbor)
    (hsub : ∀ nb ∈ nbrs,
      nb ∈ mkAdj (genEdges dCalc saf RouteType.shortest (genNodes dCalc jit s t)) cur)
    (st : DState)
    (hLB : ∀ v q, st.dists v = some q → ∃ nd ∈ genNodes dCalc jit s t, nd.id = v ∧
      dCalc s.lat s.lng nd.lat nd.lng ≤ q)
    (hdest : st.dists "destination" = some (dCalc s.lat s.lng t.lat t.lng)) :
    (∀ v q, (nbrs.foldl (relaxOne cur) st).dists v = some q →
      ∃ nd ∈ genNodes dCalc jit s t, nd.id = v ∧ dCalc s.lat s.lng nd.lat nd.lng ≤ q) ∧
    (nbrs.foldl (relaxOne cur) st).dists "destination" =
      some (dCalc s.lat s.lng t.lat t.lng) := by
  induction nbrs generalizing st with
  | nil => exact ⟨hLB, hdest⟩
  | cons nb rest ih =>
    have hnb := hsub nb (List.mem_cons_self _ _)
    have h1 := relaxOne_LB dCalc jit saf s t hsym htri cur st nb hnb hLB
    have h2 := relaxOne_dest_const dCalc jit saf s t hsym htri hD0 cur st nb hnb hLB hdest
    exact ih (fun nb' hm => hsub nb' (List.mem_cons_of_mem _ hm)) _ h1 h2

theorem dijkstraLoop_LB_dest (dCalc : ℚ → ℚ → ℚ → ℚ → ℚ) (jit : ℕ → ℚ) (saf : ℕ → ℕ → ℚ)
    (s t : Location) (hsym : ∀ a b c e, dCalc a b c e = dCalc c e a b)
    (htri : ∀ a b c d e f : ℚ, dCalc a b e f ≤ dCalc a b c d + dCalc c d e f)
    (hD0 : dCalc s.lat s.lng t.lat t.lng ≠ 0) (fuel : ℕ) (st st' : DState)
    (hLB : ∀ v q, st.dists v = some q → ∃ nd ∈ genNodes dCalc jit s t, nd.id = v ∧
      dCalc s.lat s.lng nd.lat nd.lng ≤ q)
    (hdest : st.dists "destination" = some (dCalc s.lat s.lng t.lat t.lng))
    (hL : dijkstraLoop (mkAdj (genEdges dCalc saf RouteType.shortest
      (genNodes dCalc jit s t))) fuel st = some st') :
    st'.dists "destination" = some (dCalc s.lat s.lng t.lat t.lng) := by
  induction fuel generalizing st with
  | zero => exact absurd hL (by simp [dijkstraLoop])
  | succ f ih =>
    rw [dijkstraLoop] at hL
    cases hpqe : st.pq with
    | nil =>
      rw [hpqe] at hL
      cases hL
      exact hdest
    | cons hd rest =>
      obtain ⟨cur, p⟩ := hd
      rw [hpqe] at hL
      dsimp only at hL
      by_cases hcur : cur = "destination"
      · rw [if_pos hcur] at hL
        cases hL
        exact hdest
      · rw [if_neg hcur] at hL
        have h1 := foldl_relax_LB_dest dCalc jit saf s t hsym htri hD0 cur
          (mkAdj (genEdges dCalc saf RouteType.shortest (genNodes dCalc jit s t)) cur)
          (fun nb hm => hm) { st with pq := rest } hLB hdest
        exact ih _ h1.1 h1.2 hL

/-! ### Distance sums -/

theorem sumLegs_nonneg (dCalc : ℚ → ℚ → ℚ → ℚ → ℚ)
    (hnn : ∀ a b c e, 0 ≤ dCalc a b c e) (l : List GraphNode) :
    0 ≤ sumLegs dCalc l := by
  induction l with
  | nil => simp [sumLegs]
  | cons a l ih =>
    cases l with
    | nil => simp [sumLegs]
    | cons b rest =>
      rw [show sumLegs dCalc (a :: b :: rest) =
        dCalc a.lat a.lng b.lat b.lng + sumLegs dCalc (b :: rest) from rfl]
      have := hnn a.lat a.lng b.lat b.lng
      linarith

theorem dist_le_sumLegs_chain (dCalc : ℚ → ℚ → ℚ → ℚ → ℚ)
    (htri : ∀ a b c d e f : ℚ, dCalc a b e f ≤ dCalc a b c d + dCalc c d e f)
    (l : List GraphNode) : ∀ a b : GraphNode,
    dCalc a.lat a.lng b.lat b.lng ≤ sumLegs dCalc (a :: (l ++ [b])) := by
  induction l with
  | nil =>
    intro a b
    show dCalc a.lat a.lng b.lat b.lng ≤ dCalc a.lat a.lng b.lat b.lng + sumLegs dCalc [b]
    show dCalc a.lat a.lng b.lat b.lng ≤ dCalc a.lat a.lng b.lat b.lng + 0
    linarith
  | cons c l ih =>
    intro a b
    show dCalc a.lat a.lng b.lat b.lng ≤
      dCalc a.lat a.lng c.lat c.lng + sumLegs dCalc (c :: (l ++ [b]))
    have h1 := htri a.lat a.lng c.lat c.lng b.lat b.lng
    have h2 := ih c b
    linarith

theorem foldl_relax_LB (dCalc : ℚ → ℚ → ℚ → ℚ → ℚ) (jit : ℕ → ℚ) (saf : ℕ → ℕ → ℚ)
    (s t : Location) (hsym : ∀ a b c e, dCalc a b c e = dCalc c e a b)
    (htri : ∀ a b c d e f : ℚ, dCalc a b e f ≤ dCalc a b c d + dCalc c d e f)
    (cur : String) (nbrs : List Neighbor)
    (hsub : ∀ nb ∈ nbrs,
      nb ∈ mkAdj (genEdges dCalc saf RouteType.shortest (genNodes dCalc jit s t)) cur)
    (st : DState)
    (hLB : ∀ v q, st.dists v = some q → ∃ nd ∈ genNodes dCalc jit s t, nd.id = v ∧
      dCalc s.lat s.lng nd.lat nd.lng ≤ q) :
    ∀ v q, (nbrs.foldl (relaxOne cur) st).dists v = some q →
      ∃ nd ∈ genNodes dCalc jit s t, nd.id = v ∧ dCalc s.lat s.lng nd.lat nd.lng ≤ q := by
  induction nbrs generalizing st with
  | nil => exact hLB
  | cons nb rest ih =>
    exact ih (fun nb' hm => hsub nb' (List.mem_cons_of_mem _ hm)) _
      (relaxOne_LB dCalc jit saf s t hsym htri cur st nb
        (hsub nb (List.mem_cons_self _ _)) hLB)

theorem sumLegs_eq_spec (dCalc : ℚ → ℚ → ℚ → ℚ → ℚ) (l : List GraphNode) :
    sumLegs dCalc l = specConsecutiveDistanceSum dCalc l := by
  unfold specConsecutiveDistanceSum
  induction l with
  | nil => rfl
  | cons a l ih =>
    cases l with
    | nil => rfl
    | cons b rest =>
      show dCalc a.lat a.lng b.lat b.lng + sumLegs dCalc (b :: rest) = _
      rw [ih]
      rfl

theorem mkDirections_length (dCalc : ℚ → ℚ → ℚ → ℚ → ℚ)
    (bearingL : ℚ → ℚ → ℚ → ℚ → String) (path : List GraphNode) :
    (mkDirections dCalc bearingL path).length = path.length - 1 := by
  unfold mkDirections
  rw [List.length_map, List.length_range]

theorem mkDirections_pair (dCalc : ℚ → ℚ → ℚ → ℚ → ℚ)
    (bearingL : ℚ → ℚ → ℚ → ℚ → String) (n1 n2 : GraphNode) :
    mkDirections dCalc bearingL [n1, n2] =
      [⟨"Start your journey from " ++ n1.name,
        roundTenth (dCalc n1.lat n1.lng n2.lat n2.lng),
        bearingL n1.lat n1.lng n2.lat n2.lng⟩] := rfl

theorem start_ne_arrive (a b : String) :
    ("Start your journey from " ++ a) ≠ ("Arrive at " ++ b) := by
  intro h
  have h2 := congrArg String.data h
  rw [String.data_append, String.data_append] at h2
  have h3 := congrArg List.head? h2
  simp at h3

/-- Structural fact about every returned result: its `directions` and
`totalDistance` fields are computed from its own `path` by the direction
generator and the consecutive-distance sum. -/
theorem find_fields_eq (dCalc : ℚ → ℚ → ℚ → ℚ → ℚ)
    (bearingL : ℚ → ℚ → ℚ → ℚ → String) (jit : ℕ → ℚ) (saf : ℕ → ℕ → ℚ) (fuel : ℕ)
    (s t : Location) (rt : RouteType) (r : RouteResult)
    (h : findShortestPath dCalc bearingL jit saf fuel s t rt = some r) :
    r.directions = mkDirections dCalc bearingL r.path ∧
    r.totalDistance = roundTenth (sumLegs dCalc r.path) := by
  rw [findShortestPath_def] at h
  cases hL : dijkstraLoop (mkAdj (genEdges dCalc saf rt (genNodes dCalc jit s t)))
      fuel initState with
  | none =>
    rw [hL] at h
    exact absurd h (by simp)
  | some st =>
    rw [hL] at h
    dsimp only at h
    cases hW : reconstructPath (genNodes dCalc jit s t) st.prev fuel with
    | none =>
      rw [hW] at h
      exact absurd h (by simp)
    | some path =>
      rw [hW] at h
      dsimp only at h
      cases h
      exact ⟨rfl, rfl⟩

theorem dTaxi_nonneg (a b c e : ℚ) : 0 ≤ dTaxi a b c e := by
  unfold dTaxi
  positivity

theorem dTaxi_id (a b : ℚ) : dTaxi a b a b = 0 := by
  simp [dTaxi]

theorem dTaxi_symm (a b c e : ℚ) : dTaxi a b c e = dTaxi c e a b := by
  unfold dTaxi
  rw [abs_sub_comm, abs_sub_comm b e]

theorem dTaxi_tri (a b c d e f : ℚ) : dTaxi a b e f ≤ dTaxi a b c d + dTaxi c d e f := by
  unfold dTaxi
  have h1 := abs_sub_le a c e
  have h2 := abs_sub_le b d f
  linarith

/-! ### The claims -/

/-- Claim C1: for every successful route computation, the first node of the
returned path is exactly the caller-supplied source coordinate (id
`"source"`) and the last node is exactly the caller-supplied destination
coordinate (id `"destination"`); both endpoint nodes carry the caller's
latitude/longitude unperturbed. -/
theorem c1_path_endpoints (dCalc : ℚ → ℚ → ℚ → ℚ → ℚ)
    (bearingL : ℚ → ℚ → ℚ → ℚ → String) (jit : ℕ → ℚ) (saf : ℕ → ℕ → ℚ) (fuel : ℕ)
    (s t : Location) (rt : RouteType) (r : RouteResult)
    (h : findShortestPath dCalc bearingL jit saf fuel s t rt = some r) :
    r.path.head? = some (sourceNodeOf s) ∧ r.path.getLast? = some (destNodeOf t) := by
  obtain ⟨rfl, -⟩ := find_eq_some_characterize dCalc bearingL jit saf fuel s t rt r h
  exact ⟨rfl, rfl⟩

/-- Witness for C1 at a concrete input on which the engine returns. -/
theorem c1_path_endpoints_witness :
    resultAA.path.head? = some (sourceNodeOf locA) ∧
    resultAA.path.getLast? = some (destNodeOf locA) :=
  c1_path_endpoints dTaxi bNorth jitHalf safZero 10 locA locA RouteType.shortest
    resultAA (by with_unfolding_all decide)

/-- Claim C5: two independent invocations of the route computation with
routeType `'shortest'` on the same source and destination (any jitter and
safety draws, any fuel) return the same `totalDistanceKm` whenever both
return. -/
theorem c5_deterministic (dCalc : ℚ → ℚ → ℚ → ℚ → ℚ)
    (bearingL : ℚ → ℚ → ℚ → ℚ → String) (jit₁ jit₂ : ℕ → ℚ) (saf₁ saf₂ : ℕ → ℕ → ℚ)
    (fuel₁ fuel₂ : ℕ) (s t : Location) (r₁ r₂ : RouteResult)
    (h₁ : findShortestPath dCalc bearingL jit₁ saf₁ fuel₁ s t RouteType.shortest = some r₁)
    (h₂ : findShortestPath dCalc bearingL jit₂ saf₂ fuel₂ s t RouteType.shortest = some r₂) :
    r₁.totalDistance = r₂.totalDistance := by
  obtain ⟨rfl, -⟩ := find_eq_some_characterize dCalc bearingL jit₁ saf₁ fuel₁ s t
    RouteType.shortest r₁ h₁
  obtain ⟨rfl, -⟩ := find_eq_some_characterize dCalc bearingL jit₂ saf₂ fuel₂ s t
    RouteType.shortest r₂ h₂
  rfl

/-- Witness for C5: two runs with different jitter draws both return, with
equal total distances. -/
theorem c5_deterministic_witness : resultAA.totalDistance = resultAA.totalDistance :=
  c5_deterministic dTaxi bNorth jitHalf (fun _ => 3 / 4) safZero safZero 10 10
    locA locA resultAA resultAA (by with_unfolding_all decide) (by with_unfolding_all decide)

/-- Claim C6: for every computed route, the number of direction entries
equals the path length minus one when the path has at least 2 nodes, and the
directions list is empty when the path has fewer than 2 nodes. -/
theorem c6_direction_count (dCalc : ℚ → ℚ → ℚ → ℚ → ℚ)
    (bearingL : ℚ → ℚ → ℚ → ℚ → String) (jit : ℕ → ℚ) (saf : ℕ → ℕ → ℚ) (fuel : ℕ)
    (s t : Location) (rt : RouteType) (r : RouteResult)
    (h : findShortestPath dCalc bearingL jit saf fuel s t rt = some r) :
    (2 ≤ r.path.length → r.directions.length = r.path.length - 1) ∧
    (r.path.length < 2 → r.directions = []) := by
  obtain ⟨hdir, -⟩ := find_fields_eq dCalc bearingL jit saf fuel s t rt r h
  constructor
  · intro _
    rw [hdir, mkDirections_length]
  · intro h2
    rw [hdir]
    rw [← List.length_eq_zero, mkDirections_length]
    omega

/-- Witness for C6 at a concrete returned route. -/
theorem c6_direction_count_witness :
    resultAA.directions.length = resultAA.path.length - 1 :=
  (c6_direction_count dTaxi bNorth jitHalf safZero 10 locA locA RouteType.shortest
    resultAA (by with_unfolding_all decide)).1 (by with_unfolding_all decide)

/-- Claim C7: for every computed route (under both route types), the
reported total distance is the display rounding of the sum of distances
recomputed by `calculateDistance` from the raw coordinates of consecutive
path nodes — not a sum of the solver's traversal weights (the statement
holds for every safety draw `saf`, which does not appear on the right-hand
side). -/
theorem c7_distance_additivity (dCalc : ℚ → ℚ → ℚ → ℚ → ℚ)
    (bearingL : ℚ → ℚ → ℚ → ℚ → String) (jit : ℕ → ℚ) (saf : ℕ → ℕ → ℚ) (fuel : ℕ)
    (s t : Location) (rt : RouteType) (r : RouteResult)
    (h : findShortestPath dCalc bearingL jit saf fuel s t rt = some r) :
    r.totalDistance = roundTenth (specConsecutiveDistanceSum dCalc r.path) := by
  obtain ⟨-, htd⟩ := find_fields_eq dCalc bearingL jit saf fuel s t rt r h
  rw [htd, sumLegs_eq_spec]

/-- Witness for C7 at a concrete returned route. -/
theorem c7_distance_additivity_witness :
    resultAA.totalDistance = roundTenth (specConsecutiveDistanceSum dTaxi resultAA.path) :=
  c7_distance_additivity dTaxi bNorth jitHalf safZero 10 locA locA RouteType.shortest
    resultAA (by with_unfolding_all decide)

/-- Claim C10: whenever the reconstructed path has exactly 2 nodes, the
direction generator emits exactly one entry — the
`"Start your journey from ..."` instruction — and never an
`"Arrive at ..."` instruction, because the start branch (index 0) takes
precedence over the arrive branch (index `path.length - 2`) when they
coincide. -/
theorem c10_two_node_directions (dCalc : ℚ → ℚ → ℚ → ℚ → ℚ)
    (bearingL : ℚ → ℚ → ℚ → ℚ → String) (n1 n2 : GraphNode) :
    mkDirections dCalc bearingL [n1, n2] =
      [⟨"Start your journey from " ++ n1.name,
        roundTenth (dCalc n1.lat n1.lng n2.lat n2.lng),
        bearingL n1.lat n1.lng n2.lat n2.lng⟩] ∧
    ∀ d ∈ mkDirections dCalc bearingL [n1, n2],
      d.instruction ≠ "Arrive at " ++ n2.name := by
  refine ⟨mkDirections_pair dCalc bearingL n1 n2, ?_⟩
  intro d hd
  rw [mkDirections_pair] at hd
  rcases List.mem_singleton.mp hd with rfl
  exact start_ne_arrive n1.name n2.name

/-- Witness for C10 at concrete nodes. -/
theorem c10_two_node_directions_witness :
    (⟨"Start your journey from " ++ (sourceNodeOf locA).name,
      roundTenth (dTaxi (sourceNodeOf locA).lat (sourceNodeOf locA).lng
        (destNodeOf locB).lat (destNodeOf locB).lng),
      bNorth (sourceNodeOf locA).lat (sourceNodeOf locA).lng
        (destNodeOf locB).lat (destNodeOf locB).lng⟩ : Direction).instruction ≠
      "Arrive at " ++ (destNodeOf locB).name :=
  (c10_two_node_directions dTaxi bNorth (sourceNodeOf locA) (destNodeOf locB)).2 _
    (by with_unfolding_all decide)

theorem solverDistDest_def (dCalc : ℚ → ℚ → ℚ → ℚ → ℚ) (jit : ℕ → ℚ) (saf : ℕ → ℕ → ℚ)
    (fuel : ℕ) (s t : Location) (rt : RouteType) :
    solverDistDest dCalc jit saf fuel s t rt =
      (dijkstraLoop (mkAdj (genEdges dCalc saf rt (genNodes dCalc jit s t))) fuel
        initState).map (fun st => st.dists "destination") := rfl

theorem solverPrevDest_def (dCalc : ℚ → ℚ → ℚ → ℚ → ℚ) (jit : ℕ → ℚ) (saf : ℕ → ℕ → ℚ)
    (fuel : ℕ) (s t : Location) (rt : RouteType) :
    solverPrevDest dCalc jit saf fuel s t rt =
      (dijkstraLoop (mkAdj (genEdges dCalc saf rt (genNodes dCalc jit s t))) fuel
        initState).map (fun st => st.prev "destination") := rfl

/-- Claim C3: the solver never leaves `distance[destination] = ∞` or
`predecessor[destination] = none` (the destination is relaxed in the very
first iteration of the complete graph), and the engine never returns a
partial or zero-filled route as a success: every returned path has at least
2 nodes. -/
theorem c3_no_partial_route (dCalc : ℚ → ℚ → ℚ → ℚ → ℚ)
    (bearingL : ℚ → ℚ → ℚ → ℚ → String) (jit : ℕ → ℚ) (saf : ℕ → ℕ → ℚ) (fuel : ℕ)
    (s t : Location) (rt : RouteType) :
    (∀ dd, solverDistDest dCalc jit saf fuel s t rt = some dd → dd ≠ none) ∧
    (∀ pd, solverPrevDest dCalc jit saf fuel s t rt = some pd → pd ≠ none) ∧
    (∀ r, findShortestPath dCalc bearingL jit saf fuel s t rt = some r →
      2 ≤ r.path.length) := by
  refine ⟨?_, ?_, ?_⟩
  · intro dd hdd
    rw [solverDistDest_def] at hdd
    cases hL : dijkstraLoop (mkAdj (genEdges dCalc saf rt (genNodes dCalc jit s t)))
        fuel initState with
    | none =>
      rw [hL] at hdd
      exact absurd hdd (by simp)
    | some st =>
      rw [hL, Option.map_some'] at hdd
      cases hdd
      match fuel, hL with
      | 0, hL => exact absurd hL (by simp [dijkstraLoop])
      | (f + 1), hL =>
        rw [dijkstraLoop_init_step] at hL
        obtain ⟨q', hq'⟩ := dijkstraLoop_dists_some _ f _ st "destination"
          ⟨_, st1_dists_dest dCalc jit saf s t rt⟩ hL
        rw [hq']
        exact Option.noConfusion
  · intro pd hpd
    rw [solverPrevDest_def] at hpd
    cases hL : dijkstraLoop (mkAdj (genEdges dCalc saf rt (genNodes dCalc jit s t)))
        fuel initState with
    | none =>
      rw [hL] at hpd
      exact absurd hpd (by simp)
    | some st =>
      rw [hL, Option.map_some'] at hpd
      cases hpd
      match fuel, hL with
      | 0, hL => exact absurd hL (by simp [dijkstraLoop])
      | (f + 1), hL =>
        rw [dijkstraLoop_init_step] at hL
        obtain ⟨u', hu'⟩ := dijkstraLoop_prev_some _ f _ st "destination"
          ⟨_, st1_prev_dest dCalc jit saf s t rt⟩ hL
        rw [hu']
        exact Option.noConfusion
  · intro r h
    obtain ⟨rfl, -⟩ := find_eq_some_characterize dCalc bearingL jit saf fuel s t rt r h
    exact Nat.le_refl 2

/-- Witness for C3: a concrete solver run and a concrete returned route. -/
theorem c3_no_partial_route_witness :
    ((some (1 : ℚ) : Option ℚ) ≠ none) ∧
    ((some "source" : Option String) ≠ none) ∧
    2 ≤ resultAA.path.length :=
  ⟨(c3_no_partial_route dTaxi bNorth jitHalf safZero 10 locA locB RouteType.shortest).1
      (some 1) (by with_unfolding_all decide),
   (c3_no_partial_route dTaxi bNorth jitHalf safZero 10 locA locB RouteType.shortest).2.1
      (some "source") (by with_unfolding_all decide),
   (c3_no_partial_route dTaxi bNorth jitHalf safZero 10 locA locA RouteType.shortest).2.2
      resultAA (by with_unfolding_all decide)⟩

/-- Claim C8: every edge produced by graph synthesis, under both route types
and for every draw of the safety factor (`Math.random() ∈ [0, 1)`), has a
nonnegative traversal weight: the multiplier `2 - (0.8 + u * 0.4)` stays
strictly positive for `u < 1`. -/
theorem c8_weights_nonneg (dCalc : ℚ → ℚ → ℚ → ℚ → ℚ) (jit : ℕ → ℚ) (saf : ℕ → ℕ → ℚ)
    (s t : Location) (rt : RouteType) (hnn : ∀ a b c e, 0 ≤ dCalc a b c e)
    (hsaf : ∀ i j, saf i j < 1) :
    ∀ e ∈ (generateGraph dCalc jit saf s t rt).2, 0 ≤ e.weight := by
  intro e he
  have he' : e ∈ genEdges dCalc saf rt (genNodes dCalc jit s t) := he
  obtain ⟨i, j, hij, hjlen, rfl⟩ := genEdges_mem dCalc saf rt _ e he'
  cases rt with
  | shortest => exact hnn _ _ _ _
  | safest =>
    show 0 ≤ (dCalc _ _ _ _) * (2 - (4 / 5 + saf i j * (2 / 5)))
    have h1 := hnn ((genNodes dCalc jit s t).getD i default).lat
      ((genNodes dCalc jit s t).getD i default).lng
      ((genNodes dCalc jit s t).getD j default).lat
      ((genNodes dCalc jit s t).getD j default).lng
    have h2 := hsaf i j
    nlinarith

/-- Witness for C8 at a concrete edge of a concrete safest-mode graph. -/
theorem c8_weights_nonneg_witness :
    0 ≤ ((generateGraph dTaxi jitHalf safZero locA locB RouteType.safest).2.getD 0
      default).weight :=
  c8_weights_nonneg dTaxi jitHalf safZero locA locB RouteType.safest
    (fun a b c e => dTaxi_nonneg a b c e) (fun _ _ => by norm_num [safZero]) _ (by with_unfolding_all decide)

/-- Claim C2: for every graph synthesized with routeType `'shortest'` (any
jitter draws), whenever the solver loop completes, its computed
`distance[destination]` never exceeds the sum of the base (unweighted) edge
distances along the literal chain
source → waypoint_1 → … → waypoint_n → destination.  The metric hypotheses
(identity, symmetry, triangle inequality, nonnegativity) hold of the
haversine distance the source uses. -/
theorem c2_solver_triangle (dCalc : ℚ → ℚ → ℚ → ℚ → ℚ) (jit : ℕ → ℚ) (saf : ℕ → ℕ → ℚ)
    (fuel : ℕ) (s t : Location)
    (hid : ∀ a b : ℚ, dCalc a b a b = 0)
    (hsym : ∀ a b c e, dCalc a b c e = dCalc c e a b)
    (htri : ∀ a b c d e f : ℚ, dCalc a b e f ≤ dCalc a b c d + dCalc c d e f)
    (hnn : ∀ a b c e, 0 ≤ dCalc a b c e) (q : ℚ)
    (hq : solverDistDest dCalc jit saf fuel s t RouteType.shortest = some (some q)) :
    q ≤ sumLegs dCalc
      (chainNodesOf (generateGraph dCalc jit saf s t RouteType.shortest).1) := by
  have hDle : dCalc s.lat s.lng t.lat t.lng ≤ sumLegs dCalc
      (chainNodesOf (generateGraph dCalc jit saf s t RouteType.shortest).1) :=
    dist_le_sumLegs_chain dCalc htri
      ((List.range' 1 (numWaypointsOf (dCalc s.lat s.lng t.lat t.lng) - 1)).map
        (mkWaypoint jit s t (numWaypointsOf (dCalc s.lat s.lng t.lat t.lng))))
      (sourceNodeOf s) (destNodeOf t)
  rw [solverDistDest_def] at hq
  cases hL : dijkstraLoop (mkAdj (genEdges dCalc saf RouteType.shortest
      (genNodes dCalc jit s t))) fuel initState with
  | none =>
    rw [hL] at hq
    exact absurd hq (by simp)
  | some st =>
  rw [hL, Option.map_some'] at hq
  have hqd := Option.some.inj hq
  match fuel, hL with
  | 0, hL => exact absurd hL (by simp [dijkstraLoop])
  | (f + 1), hL =>
  rw [dijkstraLoop_init_step] at hL
  have hst1 : ((mkAdj (genEdges dCalc saf RouteType.shortest (genNodes dCalc jit s t)))
      "source").foldl (relaxOne "source") { initState with pq := [] } =
      st1Of dCalc jit saf s t RouteType.shortest := rfl
  rw [hst1] at hL
  have hdest1 : (st1Of dCalc jit saf s t RouteType.shortest).dists "destination" =
      some (dCalc s.lat s.lng t.lat t.lng) := by
    rw [st1_dists_dest dCalc jit saf s t RouteType.shortest]
    simp [edgeWeight]
  by_cases hD0 : dCalc s.lat s.lng t.lat t.lng = 0
  · obtain ⟨rest, hrest⟩ := st1_pq_head_of_zero dCalc jit saf s t hnn hD0
    match f, hL with
    | 0, hL => exact absurd hL (by simp [dijkstraLoop])
    | (f' + 1), hL =>
    rw [dijkstraLoop, hrest] at hL
    dsimp only at hL
    rw [if_pos rfl] at hL
    cases hL
    have hqd2 : (st1Of dCalc jit saf s t RouteType.shortest).dists "destination" =
        some q := hqd
    rw [hdest1] at hqd2
    rw [← Option.some.inj hqd2]
    exact hDle
  · have hLB1 := foldl_relax_LB dCalc jit saf s t hsym htri "source"
      (mkAdj (genEdges dCalc saf RouteType.shortest (genNodes dCalc jit s t)) "source")
      (fun nb hm => hm) { initState with pq := [] } ?hinit
    case hinit =>
      intro v q0 hv
      by_cases hvs : v = "source"
      · subst hvs
        have hv' : (if ("source" : String) = "source" then some (0 : ℚ) else none) =
            some q0 := hv
        rw [if_pos rfl] at hv'
        have hq0 : q0 = 0 := (Option.some.inj hv').symm
        subst hq0
        exact ⟨sourceNodeOf s, List.mem_cons_self _ _, rfl, le_of_eq (hid s.lat s.lng)⟩
      · exfalso
        have hv' : (if v = "source" then some (0 : ℚ) else none) = some q0 := hv
        rw [if_neg hvs] at hv'
        exact Option.noConfusion hv'
    match f, hL with
    | 0, hL => exact absurd hL (by simp [dijkstraLoop])
    | (f' + 1), hL =>
    rw [dijkstraLoop] at hL
    cases hpqe : (st1Of dCalc jit saf s t RouteType.shortest).pq with
    | nil =>
      rw [hpqe] at hL
      cases hL
      rw [hdest1] at hqd
      rw [← Option.some.inj hqd]
      exact hDle
    | cons hd2 rest2 =>
      obtain ⟨cur2, p2⟩ := hd2
      rw [hpqe] at hL
      dsimp only at hL
      by_cases hcur2 : cur2 = "destination"
      · rw [if_pos hcur2] at hL
        cases hL
        have hqd2 : (st1Of dCalc jit saf s t RouteType.shortest).dists "destination" =
            some q := hqd
        rw [hdest1] at hqd2
        rw [← Option.some.inj hqd2]
        exact hDle
      · rw [if_neg hcur2] at hL
        have h2 := foldl_relax_LB_dest dCalc jit saf s t hsym htri hD0 cur2
          (mkAdj (genEdges dCalc saf RouteType.shortest (genNodes dCalc jit s t)) cur2)
          (fun nb hm => hm) { st1Of dCalc jit saf s t RouteType.shortest with pq := rest2 }
          hLB1 hdest1
        have h3 := dijkstraLoop_LB_dest dCalc jit saf s t hsym htri hD0 f' _ st
          h2.1 h2.2 hL
        rw [h3] at hqd
        rw [← Option.some.inj hqd]
        exact hDle

/-- Witness for C2: a concrete shortest-mode run whose solver completes with
destination distance 1, bounded by the chain distance 1. -/
theorem c2_solver_triangle_witness :
    (1 : ℚ) ≤ sumLegs dTaxi (chainNodesOf
      (generateGraph dTaxi jitHalf safZero locA locB RouteType.shortest).1) :=
  c2_solver_triangle dTaxi jitHalf safZero 10 locA locB dTaxi_id dTaxi_symm dTaxi_tri
    (fun a b c e => dTaxi_nonneg a b c e) 1 (by with_unfolding_all decide)

/-- Counterexample to claim C4 as stated: at coincident endpoints
`computeRoute(p, p, 'shortest')` returns a path of length 2 (not 1, and not
an explicit degenerate result), whose two nodes carry identical coordinates,
together with a direction entry whose compass field is computed from that
zero-length segment. -/
theorem c4_counterexample :
    findShortestPath dTaxi bNorth jitHalf safZero 10 locA locA RouteType.shortest =
      some resultAA ∧
    resultAA.path.length ≠ 1 ∧
    (resultAA.path.getD 0 default).lat = (resultAA.path.getD 1 default).lat ∧
    (resultAA.path.getD 0 default).lng = (resultAA.path.getD 1 default).lng ∧
    resultAA.totalDistance = 0 ∧
    resultAA.totalTime = 0 ∧
    resultAA.directions.length = 1 ∧
    (resultAA.directions.getD 0 default).direction = bNorth 0 0 0 0 := by
  with_unfolding_all decide

/-- Claim C4 (amended): `computeRoute(p, p, 'shortest')` — for any draws and
any fuel stock of at least 2 — returns the two-node path
`[source, destination]` with both nodes at `p`, `totalDistanceKm = 0` and
`totalTimeMinutes = 0`, and exactly one direction entry (the start
instruction), whose compass label is computed by calling the bearing
function on the zero-length segment; the code does not special-case the
degenerate input. -/
theorem c4_degenerate_route (dCalc : ℚ → ℚ → ℚ → ℚ → ℚ)
    (bearingL : ℚ → ℚ → ℚ → ℚ → String) (jit : ℕ → ℚ) (saf : ℕ → ℕ → ℚ) (fuel : ℕ)
    (p : Location) (hfuel : 2 ≤ fuel) (hnn : ∀ a b c e, 0 ≤ dCalc a b c e)
    (hidp : dCalc p.lat p.lng p.lat p.lng = 0) :
    findShortestPath dCalc bearingL jit saf fuel p p RouteType.shortest =
      some (canonicalResult dCalc bearingL p p) ∧
    (canonicalResult dCalc bearingL p p).path = [sourceNodeOf p, destNodeOf p] ∧
    (canonicalResult dCalc bearingL p p).totalDistance = 0 ∧
    (canonicalResult dCalc bearingL p p).totalTime = 0 ∧
    (canonicalResult dCalc bearingL p p).directions =
      [⟨"Start your journey from " ++ p.name, 0,
        bearingL p.lat p.lng p.lat p.lng⟩] := by
  have hsum : sumLegs dCalc [sourceNodeOf p, destNodeOf p] = 0 := by
    show dCalc p.lat p.lng p.lat p.lng + 0 = 0
    rw [hidp]
    norm_num
  refine ⟨find_returns_of_zero dCalc bearingL jit saf fuel p p hfuel hnn hidp, rfl,
    ?_, ?_, ?_⟩
  · show roundTenth (sumLegs dCalc [sourceNodeOf p, destNodeOf p]) = 0
    rw [hsum]
    with_unfolding_all decide
  · show jsRound (sumLegs dCalc [sourceNodeOf p, destNodeOf p] * (6 / 5)) = 0
    rw [hsum]
    with_unfolding_all decide
  · show mkDirections dCalc bearingL [sourceNodeOf p, destNodeOf p] = _
    rw [mkDirections_pair]
    have hrt : roundTenth (dCalc (sourceNodeOf p).lat (sourceNodeOf p).lng
        (destNodeOf p).lat (destNodeOf p).lng) = 0 := by
      have hd : dCalc (sourceNodeOf p).lat (sourceNodeOf p).lng
          (destNodeOf p).lat (destNodeOf p).lng = 0 := hidp
      rw [hd]
      with_unfolding_all decide
    rw [hrt]
    rfl

/-- Witness for C4 (amended) at a concrete coincident input. -/
theorem c4_degenerate_route_witness :
    findShortestPath dTaxi bNorth jitHalf safZero 10 locA locA RouteType.shortest =
      some (canonicalResult dTaxi bNorth locA locA) ∧
    (canonicalResult dTaxi bNorth locA locA).path = [sourceNodeOf locA, destNodeOf locA] ∧
    (canonicalResult dTaxi bNorth locA locA).totalDistance = 0 ∧
    (canonicalResult dTaxi bNorth locA locA).totalTime = 0 ∧
    (canonicalResult dTaxi bNorth locA locA).directions =
      [⟨"Start your journey from " ++ locA.name, 0,
        bNorth locA.lat locA.lng locA.lat locA.lng⟩] :=
  c4_degenerate_route dTaxi bNorth jitHalf safZero 10 locA (by norm_num)
    (fun a b c e => dTaxi_nonneg a b c e) (dTaxi_id locA.lat locA.lng)

/-- Claim C9 is false of the code (the claim is right about the intended
algorithm, the code is wrong): at any separated pair of endpoints the
route computation never returns, for every fuel bound.  The relaxation read
`distances.get(v) || Infinity` treats the stored source distance `0` as
`Infinity`, so the second processed node (here `waypoint_1`, strictly closer
to the source than the destination) gives the source a predecessor; the
predecessor map becomes cyclic and the backward reconstruction walk from
`'destination'` never reaches a node with no predecessor. -/
theorem c9_nontermination (fuel : ℕ) :
    findShortestPath dTaxi bNorth jitHalf safZero fuel locA locB
      RouteType.shortest = none := by
  cases hf : findShortestPath dTaxi bNorth jitHalf safZero fuel locA locB
      RouteType.shortest with
  | none => rfl
  | some r =>
    exfalso
    obtain ⟨-, p, rest, hpq⟩ := find_eq_some_characterize dTaxi bNorth jitHalf safZero
      fuel locA locB RouteType.shortest r hf
    have hconc : (st1Of dTaxi jitHalf safZero locA locB RouteType.shortest).pq =
        [("waypoint_1", 1 / 2), ("destination", 1)] := by with_unfolding_all decide
    rw [hconc] at hpq
    simp at hpq

end Pathfinding